import Mathlib

/-!
# BugHuntSim2: the thread-pool battle engine (`soldier_w_threadpool.cpp`)

A shallow embedding of the combat classes (`Soldier`, `Marine`, `Bug`), of the
`battle` lambda of `gameLoop` and of the two task bodies that call it, of the setup
in `main`, of `postProcessing` and of `ThreadPool::worker`; and, in the namespace
`Turns`, of the sweeps of the turn-based version (`soldier_w_turns.cpp`).

Modelling conventions.

* The class hierarchy is flattened into one record `Soldier` carrying a `kind`
  tag; a virtual call `target->takeDamage(..)` / `attacker->attack(..)` is a
  `match` on the tag (`dispatchTakeDamage`, `dispatchAttack`).  A Marine has no
  `carapace` member: its `carapace` field is `false` and is never read by the
  Marine code paths.
* `int` fields are `Int`.  In a battle every health stays in `[-100, 100]`, so
  no `int` overflow is involved.  The `int` arithmetic of `main` on the entered
  troop counts is taken modulo `2^32` (`wrapInt`).
* `size_t` counters are `Nat` with the explicit wrap-around of `--x` at zero.
* `rand()` is an explicit `Nat` argument: the roll is `rnd % 10 + 1`, the
  target index is `pick % size`.
* Console output is dropped.
-/

namespace BugHunt

/-- Dynamic type of a `Soldier*`. -/
inductive Kind where
  | marine
  | bug
deriving DecidableEq, Repr

/-- Members of `class Soldier` together with the members added by `Marine`
(`accuracy`, `damage`) and by `Bug` (`accuracy`, `damage`, `carapace`). -/
structure Soldier where
  kind : Kind
  name : String
  health : Int
  base_to_hit : Int
  hits : Int
  kill_count : Int
  enemies_killed : List String
  alive : Bool
  accuracy : Int
  damage : Int
  carapace : Bool
deriving DecidableEq, Repr

/-- Constructor `Marine(name)`: `Soldier(name)` sets health 100 and alive, the
member initialisers give `base_to_hit = 10`, `hits = 0`, `kill_count = 0`,
`accuracy = 7`, `damage = 50`. -/
def Marine.new (name : String) : Soldier :=
  { kind := Kind.marine, name := name, health := 100, base_to_hit := 10, hits := 0,
    kill_count := 0, enemies_killed := [], alive := true, accuracy := 7, damage := 50,
    carapace := false }

/-- Constructor `Bug(name)`: as for a Marine, with `accuracy = 8`, `damage = 50`
and `carapace = true`. -/
def Bug.new (name : String) : Soldier :=
  { kind := Kind.bug, name := name, health := 100, base_to_hit := 10, hits := 0,
    kill_count := 0, enemies_killed := [], alive := true, accuracy := 8, damage := 50,
    carapace := true }

/-- The base method `Soldier::takeDamage` (used by Marines, which do not override it). -/
def Soldier.takeDamage (self : Soldier) (damage : Int) : Soldier :=
  let s1 := { self with health := self.health - damage }
  if s1.health ≤ 0 then { s1 with alive := false } else s1

/-- The override `Bug::takeDamage`. -/
def Bug.takeDamage (self : Soldier) (damage : Int) : Soldier :=
  let s1 := { self with health := self.health - damage }
  if s1.health ≤ 0 ∧ s1.carapace = true then
    { s1 with health := s1.health + 50, carapace := false }
  else if s1.health ≤ 0 then
    { s1 with alive := false }
  else s1

/-- Virtual call `target->takeDamage(damage)`. -/
def dispatchTakeDamage (target : Soldier) (damage : Int) : Soldier :=
  match target.kind with
  | Kind.marine => Soldier.takeDamage target damage
  | Kind.bug => Bug.takeDamage target damage

/-- The base method `Soldier::slay` (overridden by both subclasses): returns the target. -/
def Soldier.slay (_self target : Soldier) : Soldier :=
  dispatchTakeDamage target 100

/-- The override `Marine::slay`: `target->takeDamage(damage*2)`; returns the target. -/
def Marine.slay (self target : Soldier) : Soldier :=
  dispatchTakeDamage target (self.damage * 2)

/-- The override `Bug::slay`: `target->health -= (damage*2)`, written to the field
directly; returns the target. -/
def Bug.slay (self target : Soldier) : Soldier :=
  { target with health := target.health - self.damage * 2 }

/-- The roll `rand() % 10 + 1`. -/
def toHit (rnd : Nat) : Int := ((rnd % 10 + 1 : Nat) : Int)

/-- The method `Marine::attack`; returns the attacker and the target. -/
def Marine.attack (self target : Soldier) (rnd : Nat) : Soldier × Soldier :=
  let to_hit := toHit rnd
  if to_hit > self.accuracy then
    let self1 := { self with hits := self.hits + 1 }
    if to_hit = self1.base_to_hit then (self1, Marine.slay self1 target)
    else (self1, dispatchTakeDamage target self1.damage)
  else (self, target)

/-- The method `Bug::attack`; returns the attacker and the target. -/
def Bug.attack (self target : Soldier) (rnd : Nat) : Soldier × Soldier :=
  let to_hit := toHit rnd
  if to_hit > self.accuracy then
    let self1 := { self with hits := self.hits + 1 }
    if to_hit = self1.base_to_hit then (self1, Bug.slay self1 target)
    else (self1, dispatchTakeDamage target self1.damage)
  else (self, target)

/-- Virtual call `attacker->attack(defender)`. -/
def dispatchAttack (attacker defender : Soldier) (rnd : Nat) : Soldier × Soldier :=
  match attacker.kind with
  | Kind.marine => Marine.attack attacker defender rnd
  | Kind.bug => Bug.attack attacker defender rnd

/-- The call `alive.exchange(v)` of `std::atomic<bool>`: the previous value and the
updated object. -/
def exchangeAlive (s : Soldier) (v : Bool) : Bool × Soldier :=
  (s.alive, { s with alive := v })

/-- Decrement `--x` of a `size_t` (64 bit): wraps at zero. -/
def decSizeT (x : Nat) : Nat := if x = 0 then 2 ^ 64 - 1 else x - 1

/-- Variables captured by reference by the `battle` lambda. -/
structure Shared where
  gameOver : Bool
  marineCount : Nat
  bugCount : Nat
deriving DecidableEq, Repr

/-- Lines 239-257 of `battle`: the health test, the exchange and the crediting. -/
def battleClaim (sh : Shared) (attacker defender : Soldier) (isMarineAttacking : Bool) :
    Shared × Soldier × Soldier :=
  if defender.health ≤ 0 then
    let ex := exchangeAlive defender false
    if !ex.1 then
      let attacker1 :=
        { attacker with enemies_killed := attacker.enemies_killed ++ [ex.2.name] }
      if isMarineAttacking then
        let bc := decSizeT sh.bugCount
        ({ sh with bugCount := bc, gameOver := if bc = 0 then true else sh.gameOver },
          attacker1, ex.2)
      else
        let mc := decSizeT sh.marineCount
        ({ sh with marineCount := mc, gameOver := if mc = 0 then true else sh.gameOver },
          attacker1, ex.2)
    else (sh, attacker, ex.2)
  else (sh, attacker, defender)

/-- The `battle` lambda of `gameLoop`, run to completion. -/
def battle (sh : Shared) (attacker defender : Soldier) (isMarineAttacking : Bool)
    (rnd : Nat) : Shared × Soldier × Soldier :=
  if !attacker.alive || !defender.alive then (sh, attacker, defender)
  else
    let r := dispatchAttack attacker defender rnd
    battleClaim sh r.1 r.2 isMarineAttacking

/-- State of `gameLoop`: the two rosters and the captured variables. -/
structure GameState where
  marineCorps : List Soldier
  bugSwarm : List Soldier
  marineCount : Nat
  bugCount : Nat
  gameOver : Bool
deriving DecidableEq, Repr

/-- The captured variables of a state. -/
def GameState.shared (s : GameState) : Shared :=
  { gameOver := s.gameOver, marineCount := s.marineCount, bugCount := s.bugCount }

/-- Entry of `gameLoop`: the counters are the roster sizes, `gameOver` is unset. -/
def gameLoopInit (marineCorps bugSwarm : List Soldier) : GameState :=
  { marineCorps := marineCorps, bugSwarm := bugSwarm, marineCount := marineCorps.length,
    bugCount := bugSwarm.length, gameOver := false }

/-- Rosters as built by `main` from the given names. -/
def freshState (marineNames bugNames : List String) : GameState :=
  gameLoopInit (marineNames.map Marine.new) (bugNames.map Bug.new)

/-- Names given by `main`: `"Marine1"`, ..., `"Marine<n>"`. -/
def marineNamesOf (n : Nat) : List String :=
  (List.range n).map (fun i => "Marine" ++ toString (i + 1))

/-- Names given by `main`: `"Bug1"`, ..., `"Bug<n>"`. -/
def bugNamesOf (n : Nat) : List String :=
  (List.range n).map (fun i => "Bug" ++ toString (i + 1))

/-- State at the entry of `gameLoop` as `main` calls it for the two troop counts. -/
def mainState (marine_num bug_num : Nat) : GameState :=
  freshState (marineNamesOf marine_num) (bugNamesOf bug_num)

/-- One iteration of a submitted task body: which roster member runs it, the
`rand()` value picking the target and the `rand()` value of the roll. -/
inductive Step where
  | marineTask (i : Nat) (pick : Nat) (rnd : Nat)
  | bugTask (j : Nat) (pick : Nat) (rnd : Nat)
deriving DecidableEq, Repr

/-- Body of the Marine task: `target = bugSwarm[rand() % bugSwarm.size()]`,
then `battle(marine, target, true)`. -/
def marineStep (s : GameState) (i pick rnd : Nat) : GameState :=
  match s.marineCorps[i]?, s.bugSwarm[pick % s.bugSwarm.length]? with
  | some m, some b =>
    let r := battle s.shared m b true rnd
    { marineCorps := s.marineCorps.set i r.2.1,
      bugSwarm := s.bugSwarm.set (pick % s.bugSwarm.length) r.2.2,
      marineCount := r.1.marineCount, bugCount := r.1.bugCount, gameOver := r.1.gameOver }
  | _, _ => s

/-- Body of the Bug task: `target = marineCorps[rand() % marineCorps.size()]`,
then `battle(bug, target, false)`. -/
def bugStep (s : GameState) (j pick rnd : Nat) : GameState :=
  match s.bugSwarm[j]?, s.marineCorps[pick % s.marineCorps.length]? with
  | some b, some m =>
    let r := battle s.shared b m false rnd
    { marineCorps := s.marineCorps.set (pick % s.marineCorps.length) r.2.2,
      bugSwarm := s.bugSwarm.set j r.2.1,
      marineCount := r.1.marineCount, bugCount := r.1.bugCount, gameOver := r.1.gameOver }
  | _, _ => s

/-- One battle step, run to completion. -/
def step (s : GameState) (st : Step) : GameState :=
  match st with
  | Step.marineTask i pick rnd => marineStep s i pick rnd
  | Step.bugTask j pick rnd => bugStep s j pick rnd

/-- A sequence of battle steps, each run to completion, one at a time. -/
def run (s : GameState) (steps : List Step) : GameState :=
  steps.foldl step s

/-- One iteration of the task loop `while (!gameOver) { ... battle(..) ... }`:
the battle step is taken only while `gameOver` is unset. -/
def taskIter (s : GameState) (st : Step) : GameState :=
  if s.gameOver then s else step s st

/-- A sequence of task-loop iterations. -/
def runLoop (s : GameState) (steps : List Step) : GameState :=
  steps.foldl taskIter s

/-- Sum of the lengths of the `enemies_killed` lists of a roster. -/
def totalKills (force : List Soldier) : Nat :=
  (force.map (fun x => x.enemies_killed.length)).sum

/-- Number of roster members with `alive = false`. -/
def deadCount (force : List Soldier) : Nat :=
  force.countP (fun x => !x.alive)

/-- Number of roster members with `alive = true`. -/
def aliveCount (force : List Soldier) : Nat :=
  force.countP (fun x => x.alive)

/-- Concatenation of the `enemies_killed` lists of a roster, in roster order. -/
def killsOf (force : List Soldier) : List String :=
  (force.map (fun x => x.enemies_killed)).flatten

/-- Concatenation of all combatants' `enemies_killed` lists, Marines first. -/
def allKills (s : GameState) : List String :=
  killsOf s.marineCorps ++ killsOf s.bugSwarm

/-- The captured variables after a credited kill (lines 247-255 of `battle`). -/
def creditShared (sh : Shared) (isMarineAttacking : Bool) : Shared :=
  if isMarineAttacking then
    { sh with bugCount := decSizeT sh.bugCount,
              gameOver := if decSizeT sh.bugCount = 0 then true else sh.gameOver }
  else
    { sh with marineCount := decSizeT sh.marineCount,
              gameOver := if decSizeT sh.marineCount = 0 then true else sh.gameOver }

/-! ### Two `battle` calls in flight

A `battle` call is cut at its two sequence points into three phases: the guard of
line 230, the call `attacker->attack(defender)` of line 232, and the claim of lines
239-257.  Each phase reads and writes the shared rosters and counters; a schedule
says which of two calls in flight runs its next phase.  (The phases themselves are
taken whole: every schedule of this model is a possible execution of two worker
threads.) -/

/-- Where a `battle` call in flight stands. -/
inductive Pc where
  | guard
  | attack
  | claim
  | done
deriving DecidableEq, Repr

/-- A `battle` call in flight: its arguments (as roster indices), the `rand()` value
of its roll, and its position. -/
structure Call where
  isMarineAttacking : Bool
  attacker : Nat
  defender : Nat
  rnd : Nat
  pc : Pc
deriving DecidableEq, Repr

/-- The object `attacker` points to. -/
def attackerOf (s : GameState) (c : Call) : Option Soldier :=
  if c.isMarineAttacking then s.marineCorps[c.attacker]? else s.bugSwarm[c.attacker]?

/-- The object `defender` points to. -/
def defenderOf (s : GameState) (c : Call) : Option Soldier :=
  if c.isMarineAttacking then s.bugSwarm[c.defender]? else s.marineCorps[c.defender]?

/-- Store the attacker, the defender and the captured variables of a call. -/
def writeBack (s : GameState) (c : Call) (sh : Shared) (a d : Soldier) : GameState :=
  if c.isMarineAttacking then
    { marineCorps := s.marineCorps.set c.attacker a, bugSwarm := s.bugSwarm.set c.defender d,
      marineCount := sh.marineCount, bugCount := sh.bugCount, gameOver := sh.gameOver }
  else
    { marineCorps := s.marineCorps.set c.defender d, bugSwarm := s.bugSwarm.set c.attacker a,
      marineCount := sh.marineCount, bugCount := sh.bugCount, gameOver := sh.gameOver }

/-- The next phase of a `battle` call in flight. -/
def microStep (s : GameState) (c : Call) : GameState × Call :=
  match attackerOf s c, defenderOf s c with
  | some a, some d =>
    match c.pc with
    | Pc.guard =>
      if !a.alive || !d.alive then (s, { c with pc := Pc.done })
      else (s, { c with pc := Pc.attack })
    | Pc.attack =>
      let r := dispatchAttack a d c.rnd
      (writeBack s c s.shared r.1 r.2, { c with pc := Pc.claim })
    | Pc.claim =>
      let r := battleClaim s.shared a d c.isMarineAttacking
      (writeBack s c r.1 r.2.1 r.2.2, { c with pc := Pc.done })
    | Pc.done => (s, c)
  | _, _ => (s, { c with pc := Pc.done })

/-- Two calls in flight under a schedule: `false` runs the next phase of the first
call, `true` that of the second. -/
def interleave (s : GameState) (c1 c2 : Call) : List Bool → GameState × Call × Call
  | [] => (s, c1, c2)
  | false :: rest => interleave (microStep s c1).1 (microStep s c1).2 c2 rest
  | true :: rest => interleave (microStep s c2).1 c1 (microStep s c2).2 rest

/-- The kill lists of one side are sound: no id is listed twice, and every listed id
is the id of an opposing roster member, all bearers of which have `alive = false`. -/
def KillsOK (attackers defenders : List Soldier) : Prop :=
  (killsOf attackers).Nodup ∧
  ∀ n ∈ killsOf attackers,
    n ∈ defenders.map (fun x => x.name) ∧ ∀ d ∈ defenders, d.name = n → d.alive = false

/-- Invariant behind the uniqueness of kill credits: the roster ids are those given
at construction and both sides have sound kill lists. -/
def KillInv (mn bn : List String) (s : GameState) : Prop :=
  s.marineCorps.map (fun x => x.name) = mn ∧ s.bugSwarm.map (fun x => x.name) = bn ∧
  KillsOK s.marineCorps s.bugSwarm ∧ KillsOK s.bugSwarm s.marineCorps

/-- Invariant of the task loop: while `gameOver` is unset both counters are positive;
once it is set, exactly one of them is zero. -/
def LoopInv (s : GameState) : Prop :=
  (s.gameOver = false → 1 ≤ s.marineCount ∧ 1 ≤ s.bugCount) ∧
  (s.gameOver = true →
    (s.marineCount = 0 ∧ 1 ≤ s.bugCount) ∨ (s.bugCount = 0 ∧ 1 ≤ s.marineCount))

/-- Invariant of battle steps: each counter bounds the number of living members of its
side, and `gameOver` is set exactly when a counter is zero. -/
def CountInv (s : GameState) : Prop :=
  aliveCount s.marineCorps ≤ s.marineCount ∧ aliveCount s.bugSwarm ≤ s.bugCount ∧
  (s.gameOver = true ↔ s.marineCount = 0 ∨ s.bugCount = 0)

/-- The three phases of one call, run without interruption. -/
def sequentialCall (s : GameState) (c : Call) : GameState :=
  (microStep (microStep (microStep s c).1 (microStep s c).2).1
    (microStep (microStep s c).1 (microStep s c).2).2).1
/-- Every roster member with `alive = false` has `health <= 0`. -/
def DeadInv (s : GameState) : Prop :=
  (∀ x ∈ s.marineCorps, x.alive = false → x.health ≤ 0) ∧
  (∀ x ∈ s.bugSwarm, x.alive = false → x.health ≤ 0)

/-! ### Sequences of `takeDamage` calls on one Bug -/

/-- A sequence of `takeDamage` calls on one Bug, in order. -/
def Bug.takeDamageSeq (self : Soldier) (amounts : List Int) : Soldier :=
  amounts.foldl Bug.takeDamage self

/-- Number of calls of a sequence of `takeDamage` calls on one Bug in which the
`+50` restoration of line 211 is applied: the calls that leave
`health - damage + 50` where the plain subtraction leaves `health - damage`. -/
def Bug.restorations (self : Soldier) : List Int → Nat
  | [] => 0
  | d :: rest =>
    (if (Bug.takeDamage self d).health = self.health - d + 50 then 1 else 0)
      + Bug.restorations (Bug.takeDamage self d) rest

/-! ### The attacker and the target of a battle step -/

/-- Roster of the attacker of a battle step. -/
def attackersOf (s : GameState) : Step → List Soldier
  | Step.marineTask _ _ _ => s.marineCorps
  | Step.bugTask _ _ _ => s.bugSwarm

/-- Roster of the target of a battle step. -/
def defendersOf (s : GameState) : Step → List Soldier
  | Step.marineTask _ _ _ => s.bugSwarm
  | Step.bugTask _ _ _ => s.marineCorps

/-- Roster position of the attacker of a battle step. -/
def attackerIndex : Step → Nat
  | Step.marineTask i _ _ => i
  | Step.bugTask j _ _ => j

/-- Roster position of the target of a battle step: `rand() % size`. -/
def defenderIndex (s : GameState) : Step → Nat
  | Step.marineTask _ pick _ => pick % s.bugSwarm.length
  | Step.bugTask _ pick _ => pick % s.marineCorps.length

/-- The attacker of a battle step. -/
def stepAttacker (s : GameState) (st : Step) : Option Soldier :=
  (attackersOf s st)[attackerIndex st]?

/-- The target of a battle step. -/
def stepDefender (s : GameState) (st : Step) : Option Soldier :=
  (defendersOf s st)[defenderIndex s st]?

/-! ### Setup in `main` -/

/-- The prompt loop `while (num == 0) { std::cin >> num; ... }` of `main` on the
integers entered, `num` being the current value of the variable: `some` of the
value with which the loop exits, `none` while it still waits for an entry. -/
def promptLoop (num : Int) : List Int → Option Int
  | [] => if num = 0 then none else some num
  | entry :: rest => if num = 0 then promptLoop entry rest else some num

/-- The prompt loop from the initial value `marine_num = 0` (`bug_num = 0`). -/
def readTroopCount (entries : List Int) : Option Int :=
  promptLoop 0 entries

/-- Number of roster members built by `for (int i = 1; i <= num; i++)`. -/
def builtCount (num : Int) : Nat := num.toNat

/-- Conversion of an `int` to `size_t` (64 bit). -/
def toSizeT (x : Int) : Nat := (x % 2 ^ 64).toNat

/-- Result of an `int` (32 bit) addition or subtraction whose exact value is `x`:
`x` itself while it fits, wrapped around modulo `2^32` into
`[-2^31, 2^31 - 1]` otherwise. -/
def wrapInt (x : Int) : Int := (x + 2147483648) % 4294967296 - 2147483648

/-- The argument expression of `ThreadPool pool(...)` in `main`, as an `int`: the
sum `marine_num + bug_num` and the difference `numCores - 1` are `int` operations. -/
def poolSizeArg (marine_num bug_num numCores : Int) : Int :=
  if wrapInt (marine_num + bug_num) > wrapInt (numCores - 1) then wrapInt (numCores - 1)
  else wrapInt (marine_num + bug_num)

/-- The worker count `numThreads` received by the `ThreadPool` constructor. -/
def poolSize (marine_num bug_num numCores : Int) : Nat :=
  toSizeT (poolSizeArg marine_num bug_num numCores)

/-! ### `postProcessing` -/

/-- The four variables `tallyKills` receives by reference. -/
structure TallyRefs where
  total_hits : Int
  total_kills : Int
  highest_kill_count : Int
  top_killers : List Soldier
deriving DecidableEq, Repr

/-- Body of the loop of `tallyKills` for one roster member. -/
def tallyOne (r : TallyRefs) (soldier : Soldier) : TallyRefs :=
  let r1 := { r with total_hits := r.total_hits + soldier.hits }
  let kill_count : Int := (soldier.enemies_killed.length : Int)
  let r2 := { r1 with total_kills := r1.total_kills + kill_count }
  if kill_count > r2.highest_kill_count then
    { r2 with highest_kill_count := kill_count, top_killers := [soldier] }
  else if kill_count = r2.highest_kill_count then
    { r2 with top_killers := r2.top_killers ++ [soldier] }
  else r2

/-- The lambda `tallyKills` of `postProcessing`. -/
def tallyKills (force : List Soldier) (r : TallyRefs) : TallyRefs :=
  force.foldl tallyOne r

/-- The statistics `postProcessing` holds after its two `tallyKills` calls. -/
structure PostStats where
  total_marine_hits : Int
  total_bug_hits : Int
  total_marine_kills : Int
  total_bug_kills : Int
  highest_kill_count : Int
  top_killers : List Soldier
deriving DecidableEq, Repr

/-- Lines 312-334 of `postProcessing`: `tallyKills` on the Marine roster, then on
the Bug roster, sharing `highest_kill_count` and `top_killers`. -/
def postProcessing (marineCorps bugSwarm : List Soldier) : PostStats :=
  let m := tallyKills marineCorps
    { total_hits := 0, total_kills := 0, highest_kill_count := 0, top_killers := [] }
  let b := tallyKills bugSwarm
    { total_hits := 0, total_kills := 0, highest_kill_count := m.highest_kill_count,
      top_killers := m.top_killers }
  { total_marine_hits := m.total_hits, total_bug_hits := b.total_hits,
    total_marine_kills := m.total_kills, total_bug_kills := b.total_kills,
    highest_kill_count := b.highest_kill_count, top_killers := b.top_killers }

/-- The maximum `enemies_killed` length over a list of combatants (0 for no
combatants), as the statement of the top killers reads it. -/
def maxKillCount (force : List Soldier) : Nat :=
  (force.map (fun x => x.enemies_killed.length)).foldr max 0

/-- The combatants of a list whose `enemies_killed` length is the maximum, in
order, as the statement of the top killers reads it. -/
def topKillersSpec (force : List Soldier) : List Soldier :=
  force.filter (fun x => x.enemies_killed.length = maxKillCount force)

/-- Sum of `hits` over a roster. -/
def totalHits (force : List Soldier) : Int :=
  (force.map (fun x => x.hits)).sum

/-! ### Counters against kill lists -/

/-- The remaining count of the side attacked in a battle step. -/
def opposingCount (s : GameState) : Step → Nat
  | Step.marineTask _ _ _ => s.bugCount
  | Step.bugTask _ _ _ => s.marineCount

/-- The remaining count of the side of the attacker of a battle step. -/
def ownCount (s : GameState) : Step → Nat
  | Step.marineTask _ _ _ => s.marineCount
  | Step.bugTask _ _ _ => s.bugCount

/-- Each counter is the size of its roster less the kills credited to the other side. -/
def CreditInv (s : GameState) : Prop :=
  s.bugCount + totalKills s.marineCorps = s.bugSwarm.length ∧
  s.marineCount + totalKills s.bugSwarm = s.marineCorps.length

/-- Every roster member with `alive = true` has `health > 0`. -/
def LiveInv (s : GameState) : Prop :=
  (∀ x ∈ s.marineCorps, x.alive = true → 0 < x.health) ∧
  (∀ x ∈ s.bugSwarm, x.alive = true → 0 < x.health)

/-- Every roster member has at most as many credited kills as landed hits. -/
def HitInv (s : GameState) : Prop :=
  (∀ x ∈ s.marineCorps, (x.enemies_killed.length : Int) ≤ x.hits) ∧
  (∀ x ∈ s.bugSwarm, (x.enemies_killed.length : Int) ≤ x.hits)

/-! ### The worker of the thread pool, one worker running alone

Tasks are identifiers; running a task is recorded in `ran`.  With a single worker
and nobody else to push a task or raise the stop flag, a `cv.wait` whose predicate
is false never returns. -/

/-- The method `ThreadSafeQueue::push`: enqueue at the back. -/
def ThreadSafeQueue.push (queue : List Nat) (item : Nat) : List Nat :=
  queue ++ [item]

/-- The method `ThreadSafeQueue::pop`: the front item and the rest (`none` while the
queue is empty, where `pop` waits). -/
def ThreadSafeQueue.pop (queue : List Nat) : Option (Nat × List Nat) :=
  match queue with
  | [] => none
  | item :: rest => some (item, rest)

/-- The method `ThreadSafeQueue::empty`. -/
def ThreadSafeQueue.empty (queue : List Nat) : Bool :=
  queue.isEmpty

/-- Members of `ThreadPool` seen by a worker, and the record of the tasks run. -/
structure PoolState where
  stopFlag : Bool
  taskQueue : List Nat
  ran : List Nat
deriving DecidableEq, Repr

/-- How a run of `ThreadPool::worker` ends: it returned, it waits on the condition
variable, or it is still running when the fuel is used up. -/
inductive WorkerEnd where
  | returned
  | waiting
  | running
deriving DecidableEq, Repr

/-- The method `ThreadPool::submit`. -/
def ThreadPool.submit (s : PoolState) (task : Nat) : PoolState :=
  { s with taskQueue := ThreadSafeQueue.push s.taskQueue task }

/-- The stop signal of the destructor `~ThreadPool`: `stopFlag = true`. -/
def ThreadPool.raiseStop (s : PoolState) : PoolState :=
  { s with stopFlag := true }

/-- The method `ThreadPool::worker`; `fuel` bounds the number of loop iterations. -/
def ThreadPool.worker : Nat → PoolState → WorkerEnd × PoolState
  | 0, s => (WorkerEnd.running, s)
  | fuel + 1, s =>
    if !(s.stopFlag || !ThreadSafeQueue.empty s.taskQueue) then (WorkerEnd.waiting, s)
    else if s.stopFlag && ThreadSafeQueue.empty s.taskQueue then (WorkerEnd.returned, s)
    else
      match ThreadSafeQueue.pop s.taskQueue with
      | none => (WorkerEnd.waiting, s)
      | some (task, rest) =>
        ThreadPool.worker fuel { s with taskQueue := rest, ran := s.ran ++ [task] }
/-! ### The turn-based version (`soldier_w_turns.cpp`)

The classes of this file carry no name and no kill list; `hit` is `marine_hit` for a
Marine and `bug_hit` for a Bug.  `rand` gives the value of the k-th call of `rand()`,
`randCalls` counts the calls made. -/

namespace Turns

/-- Members of `Soldier`, `Marine` and `Bug` of the turn-based version. -/
structure Soldier where
  kind : Kind
  health : Int
  base_to_hit : Int
  alive : Bool
  accuracy : Int
  damage : Int
  carapace : Bool
  hit : Int
deriving DecidableEq, Repr

/-- Constructor `Marine()`. -/
def Marine.new : Soldier :=
  { kind := Kind.marine, health := 100, base_to_hit := 10, alive := true, accuracy := 7,
    damage := 50, carapace := false, hit := 0 }

/-- Constructor `Bug()`. -/
def Bug.new : Soldier :=
  { kind := Kind.bug, health := 100, base_to_hit := 10, alive := true, accuracy := 8,
    damage := 50, carapace := true, hit := 0 }

/-- The base method `Soldier::takeDamage`. -/
def Soldier.takeDamage (self : Soldier) (damage : Int) : Soldier :=
  let s1 := { self with health := self.health - damage }
  if s1.health ≤ 0 then { s1 with alive := false } else s1

/-- The override `Bug::takeDamage`. -/
def Bug.takeDamage (self : Soldier) (damage : Int) : Soldier :=
  let s1 := { self with health := self.health - damage }
  if s1.health ≤ 0 ∧ s1.carapace = true then
    { s1 with health := s1.health + 50, carapace := false }
  else if s1.health ≤ 0 then
    { s1 with alive := false }
  else s1

/-- Virtual call `target->takeDamage(damage)`. -/
def dispatchTakeDamage (target : Soldier) (damage : Int) : Soldier :=
  match target.kind with
  | Kind.marine => Soldier.takeDamage target damage
  | Kind.bug => Bug.takeDamage target damage

/-- The override `Marine::slay`; returns the target. -/
def Marine.slay (self target : Soldier) : Soldier :=
  dispatchTakeDamage target (self.damage * 2)

/-- The override `Bug::slay`: `target->health -= (damage*2)`; returns the target. -/
def Bug.slay (self target : Soldier) : Soldier :=
  { target with health := target.health - self.damage * 2 }

/-- The method `Marine::attack`; returns the attacker and the target. -/
def Marine.attack (self target : Soldier) (rnd : Nat) : Soldier × Soldier :=
  let to_hit := toHit rnd
  if to_hit > self.accuracy then
    let self1 := { self with hit := self.hit + 1 }
    if to_hit = self1.base_to_hit then (self1, Marine.slay self1 target)
    else (self1, dispatchTakeDamage target self1.damage)
  else (self, target)

/-- The method `Bug::attack`; returns the attacker and the target. -/
def Bug.attack (self target : Soldier) (rnd : Nat) : Soldier × Soldier :=
  let to_hit := toHit rnd
  if to_hit > self.accuracy then
    let self1 := { self with hit := self.hit + 1 }
    if to_hit = self1.base_to_hit then (self1, Bug.slay self1 target)
    else (self1, dispatchTakeDamage target self1.damage)
  else (self, target)

/-- State of `gameLoop` of the turn-based version. -/
structure TurnState where
  marine_force : List Soldier
  bug_force : List Soldier
  marine_hits : List Int
  bug_hits : List Int
  marine_turn : Bool
  game_over : Bool
  turn_number : Int
  randCalls : Nat
deriving DecidableEq, Repr

/-- Body of the loop of `marineAttack` for the roster position `i`. -/
def marineAttackAt (rand : Nat → Nat) (s : TurnState) (i : Nat) : TurnState :=
  match s.marine_force[i]? with
  | none => s
  | some marine =>
    if !marine.alive then s
    else
      match s.bug_force[rand s.randCalls % s.bug_force.length]? with
      | none => s
      | some target =>
        let r := Marine.attack marine target (rand (s.randCalls + 1))
        { s with marine_force := s.marine_force.set i r.1,
                 bug_force := s.bug_force.set (rand s.randCalls % s.bug_force.length) r.2,
                 marine_hits := s.marine_hits ++ [r.1.hit],
                 randCalls := s.randCalls + 2 }

/-- The sweep `marineAttack`. -/
def marineAttack (rand : Nat → Nat) (s : TurnState) : TurnState :=
  (List.range s.marine_force.length).foldl (marineAttackAt rand) s

/-- Body of the loop of `bugAttack` for the roster position `j`. -/
def bugAttackAt (rand : Nat → Nat) (s : TurnState) (j : Nat) : TurnState :=
  match s.bug_force[j]? with
  | none => s
  | some bug =>
    if !bug.alive then s
    else
      match s.marine_force[rand s.randCalls % s.marine_force.length]? with
      | none => s
      | some target =>
        let r := Bug.attack bug target (rand (s.randCalls + 1))
        { s with bug_force := s.bug_force.set j r.1,
                 marine_force :=
                   s.marine_force.set (rand s.randCalls % s.marine_force.length) r.2,
                 bug_hits := s.bug_hits ++ [r.1.hit],
                 randCalls := s.randCalls + 2 }

/-- The sweep `bugAttack`. -/
def bugAttack (rand : Nat → Nat) (s : TurnState) : TurnState :=
  (List.range s.bug_force.length).foldl (bugAttackAt rand) s

/-- One iteration of `while (!game_over)` in `gameLoop`: the sweep of the side whose
turn it is, the two `none_of` tests, and the toggle of the turn. -/
def gameLoopIter (rand : Nat → Nat) (s : TurnState) : TurnState :=
  let s1 := if s.marine_turn then marineAttack rand s else bugAttack rand s
  let s2 :=
    if s1.bug_force.all (fun bug => !bug.alive) then { s1 with game_over := true }
    else if s1.marine_force.all (fun marine => !marine.alive) then
      { s1 with game_over := true }
    else s1
  let s3 := { s2 with marine_turn := !s2.marine_turn }
  if s3.marine_turn then { s3 with turn_number := s3.turn_number + 1 } else s3

/-- The loop `while (!game_over)` for at most `n` iterations. -/
def gameLoopRun (rand : Nat → Nat) : Nat → TurnState → TurnState
  | 0, s => s
  | n + 1, s => if s.game_over then s else gameLoopRun rand n (gameLoopIter rand s)

/-- Entry of `gameLoop` as `main` calls it: the rosters built for the two troop
counts and the side chosen to go first. -/
def initState (marine_num bug_num : Nat) (marines_first : Bool) : TurnState :=
  { marine_force := List.replicate marine_num Marine.new,
    bug_force := List.replicate bug_num Bug.new,
    marine_hits := [], bug_hits := [], marine_turn := marines_first, game_over := false,
    turn_number := 1, randCalls := 0 }

end Turns

/-- Each counter bounds the number of living members of its side. -/
def AliveBound (s : GameState) : Prop :=
  aliveCount s.marineCorps ≤ s.marineCount ∧ aliveCount s.bugSwarm ≤ s.bugCount

/-- The argument `isMarineAttacking` with which a battle step calls `battle`. -/
def isMarineTask : Step → Bool
  | Step.marineTask _ _ _ => true
  | Step.bugTask _ _ _ => false

/-- The `rand()` value of the roll of a battle step. -/
def stepRoll : Step → Nat
  | Step.marineTask _ _ rnd => rnd
  | Step.bugTask _ _ rnd => rnd

/-! ## Lemmas on `battle` and on battle steps -/

theorem set_split {α : Type} (l : List α) (i : Nat) (x : α) (h : l[i]? = some x) :
    ∃ p q, l = p ++ x :: q ∧ p.length = i ∧ ∀ y, l.set i y = p ++ y :: q := by
  induction l generalizing i with
  | nil => simp at h
  | cons a t ih =>
    cases i with
    | zero =>
      simp at h
      exact ⟨[], t, by simp [h], rfl, fun y => by simp⟩
    | succ k =>
      simp at h
      obtain ⟨p, q, h1, h2, h3⟩ := ih k h
      exact ⟨a :: p, q, by simp [h1], by simp [h2], fun y => by simp [h3 y]⟩

theorem attack_fields (a d : Soldier) (rnd : Nat) :
    (dispatchAttack a d rnd).1.name = a.name ∧ (dispatchAttack a d rnd).1.alive = a.alive ∧
    (dispatchAttack a d rnd).1.health = a.health ∧
    (dispatchAttack a d rnd).1.enemies_killed = a.enemies_killed ∧
    (dispatchAttack a d rnd).2.name = d.name ∧
    (dispatchAttack a d rnd).2.enemies_killed = d.enemies_killed ∧
    (dispatchAttack a d rnd).2.hits = d.hits ∧
    ((dispatchAttack a d rnd).2.alive = true → d.alive = true) ∧
    ((dispatchAttack a d rnd).2.alive = false → d.alive = true →
      (dispatchAttack a d rnd).2.health ≤ 0) := by
  unfold dispatchAttack Marine.attack Bug.attack Marine.slay Bug.slay dispatchTakeDamage
    Soldier.takeDamage Bug.takeDamage
  cases a.kind <;> cases d.kind <;> simp only [] <;> split_ifs <;> simp_all

theorem battle_guard (sh : Shared) (a d : Soldier) (isM : Bool) (rnd : Nat)
    (h : a.alive = false ∨ d.alive = false) : battle sh a d isM rnd = (sh, a, d) := by
  unfold battle
  rcases h with h | h <;> simp [h]

theorem battleClaim_fields (sh : Shared) (a d : Soldier) (isM : Bool) :
    (battleClaim sh a d isM).2.1.name = a.name ∧
    (battleClaim sh a d isM).2.1.alive = a.alive ∧
    (battleClaim sh a d isM).2.1.health = a.health ∧
    (battleClaim sh a d isM).2.1.hits = a.hits ∧
    (battleClaim sh a d isM).2.2.name = d.name ∧
    (battleClaim sh a d isM).2.2.enemies_killed = d.enemies_killed ∧
    (battleClaim sh a d isM).2.2.hits = d.hits ∧
    (battleClaim sh a d isM).2.2.health = d.health ∧
    ((battleClaim sh a d isM).2.2.alive = true → d.alive = true ∧ 0 < d.health) ∧
    ((battleClaim sh a d isM).2.2.alive = false → d.alive = false ∨ d.health ≤ 0) := by
  unfold battleClaim exchangeAlive
  cases isM <;> simp only [] <;> split_ifs <;> simp_all

theorem battleClaim_credit (sh : Shared) (a d : Soldier) (isM : Bool) :
    ((battleClaim sh a d isM).1 = sh ∧
      (battleClaim sh a d isM).2.1.enemies_killed = a.enemies_killed) ∨
    (d.alive = false ∧ d.health ≤ 0 ∧ (battleClaim sh a d isM).1 = creditShared sh isM ∧
      (battleClaim sh a d isM).2.1.enemies_killed = a.enemies_killed ++ [d.name]) := by
  unfold battleClaim exchangeAlive creditShared
  cases isM <;> simp only [] <;> split_ifs <;> simp_all

theorem battle_fields (sh : Shared) (a d : Soldier) (isM : Bool) (rnd : Nat) :
    (battle sh a d isM rnd).2.1.name = a.name ∧
    (battle sh a d isM rnd).2.1.alive = a.alive ∧
    (battle sh a d isM rnd).2.1.health = a.health ∧
    (battle sh a d isM rnd).2.2.name = d.name ∧
    (battle sh a d isM rnd).2.2.enemies_killed = d.enemies_killed ∧
    (battle sh a d isM rnd).2.2.hits = d.hits ∧
    ((battle sh a d isM rnd).2.2.alive = true → d.alive = true) ∧
    ((d.alive = false → d.health ≤ 0) →
      (battle sh a d isM rnd).2.2.alive = false → (battle sh a d isM rnd).2.2.health ≤ 0) := by
  by_cases hg : a.alive = false ∨ d.alive = false
  · rw [battle_guard sh a d isM rnd hg]; simp
  · have ha : a.alive = true := by
      cases h : a.alive <;> simp_all
    have hd : d.alive = true := by
      cases h : d.alive <;> simp_all
    have hb : battle sh a d isM rnd =
        battleClaim sh (dispatchAttack a d rnd).1 (dispatchAttack a d rnd).2 isM := by
      unfold battle; simp [ha, hd]
    rw [hb]
    obtain ⟨a1, a2, a3, a4, a5, a6, a7, a8, a9⟩ := attack_fields a d rnd
    obtain ⟨c1, c2, c3, c4, c5, c6, c7, c8, c9, c10⟩ :=
      battleClaim_fields sh (dispatchAttack a d rnd).1 (dispatchAttack a d rnd).2 isM
    refine ⟨by rw [c1, a1], by rw [c2, a2], by rw [c3, a3], by rw [c5, a5], by rw [c6, a6],
      by rw [c7, a7], fun _ => hd, ?_⟩
    intro _ h
    rw [c8]
    rcases c10 h with h1 | h1
    · exact a9 h1 hd
    · exact h1

theorem battle_credit (sh : Shared) (a d : Soldier) (isM : Bool) (rnd : Nat) :
    ((battle sh a d isM rnd).1 = sh ∧
      (battle sh a d isM rnd).2.1.enemies_killed = a.enemies_killed) ∨
    (a.alive = true ∧ d.alive = true ∧ (battle sh a d isM rnd).2.2.alive = false ∧
      (battle sh a d isM rnd).1 = creditShared sh isM ∧
      (battle sh a d isM rnd).2.1.enemies_killed = a.enemies_killed ++ [d.name]) := by
  by_cases hg : a.alive = false ∨ d.alive = false
  · rw [battle_guard sh a d isM rnd hg]; simp
  · have ha : a.alive = true := by
      cases h : a.alive <;> simp_all
    have hd : d.alive = true := by
      cases h : d.alive <;> simp_all
    have hb : battle sh a d isM rnd =
        battleClaim sh (dispatchAttack a d rnd).1 (dispatchAttack a d rnd).2 isM := by
      unfold battle; simp [ha, hd]
    rw [hb]
    obtain ⟨a1, a2, a3, a4, a5, a6, a7, a8, a9⟩ := attack_fields a d rnd
    obtain ⟨c1, c2, c3, c4, c5, c6, c7, c8, c9, c10⟩ :=
      battleClaim_fields sh (dispatchAttack a d rnd).1 (dispatchAttack a d rnd).2 isM
    rcases battleClaim_credit sh (dispatchAttack a d rnd).1 (dispatchAttack a d rnd).2 isM
      with ⟨h1, h2⟩ | ⟨h1, h2, h3, h4⟩
    · left; exact ⟨h1, by rw [h2, a4]⟩
    · right
      refine ⟨ha, hd, ?_, h3, by rw [h4, a4, a5]⟩
      cases hx : (battleClaim sh (dispatchAttack a d rnd).1 (dispatchAttack a d rnd).2 isM).2.2.alive
      · rfl
      · have := (c9 hx).2
        omega

theorem marineStep_cases (s : GameState) (i pick rnd : Nat) :
    marineStep s i pick rnd = s ∨
    ∃ p1 m q1 p2 b q2, s.marineCorps = p1 ++ m :: q1 ∧ s.bugSwarm = p2 ++ b :: q2 ∧
      marineStep s i pick rnd =
        { marineCorps := p1 ++ (battle s.shared m b true rnd).2.1 :: q1,
          bugSwarm := p2 ++ (battle s.shared m b true rnd).2.2 :: q2,
          marineCount := (battle s.shared m b true rnd).1.marineCount,
          bugCount := (battle s.shared m b true rnd).1.bugCount,
          gameOver := (battle s.shared m b true rnd).1.gameOver } := by
  unfold marineStep
  cases hm : s.marineCorps[i]? with
  | none => left; rfl
  | some m =>
    cases hb : s.bugSwarm[pick % s.bugSwarm.length]? with
    | none => left; rfl
    | some b =>
      right
      obtain ⟨p1, q1, e1, _, f1⟩ := set_split _ _ _ hm
      obtain ⟨p2, q2, e2, _, f2⟩ := set_split _ _ _ hb
      exact ⟨p1, m, q1, p2, b, q2, e1, e2, by simp only [f1, f2]⟩

theorem bugStep_cases (s : GameState) (j pick rnd : Nat) :
    bugStep s j pick rnd = s ∨
    ∃ p1 m q1 p2 b q2, s.marineCorps = p1 ++ m :: q1 ∧ s.bugSwarm = p2 ++ b :: q2 ∧
      bugStep s j pick rnd =
        { marineCorps := p1 ++ (battle s.shared b m false rnd).2.2 :: q1,
          bugSwarm := p2 ++ (battle s.shared b m false rnd).2.1 :: q2,
          marineCount := (battle s.shared b m false rnd).1.marineCount,
          bugCount := (battle s.shared b m false rnd).1.bugCount,
          gameOver := (battle s.shared b m false rnd).1.gameOver } := by
  unfold bugStep
  cases hb : s.bugSwarm[j]? with
  | none => left; rfl
  | some b =>
    cases hm : s.marineCorps[pick % s.marineCorps.length]? with
    | none => left; rfl
    | some m =>
      right
      obtain ⟨p1, q1, e1, _, f1⟩ := set_split _ _ _ hm
      obtain ⟨p2, q2, e2, _, f2⟩ := set_split _ _ _ hb
      exact ⟨p1, m, q1, p2, b, q2, e1, e2, by simp only [f1, f2]⟩

/-- An invariant of single battles is an invariant of every run: `P` holds of a state
as soon as it is preserved by a battle between any roster member of one side and any
roster member of the other. -/
theorem step_induction (P : GameState → Prop)
    (hM : ∀ (s : GameState) p1 m q1 p2 b q2 rnd, P s → s.marineCorps = p1 ++ m :: q1 →
      s.bugSwarm = p2 ++ b :: q2 →
      P { marineCorps := p1 ++ (battle s.shared m b true rnd).2.1 :: q1,
          bugSwarm := p2 ++ (battle s.shared m b true rnd).2.2 :: q2,
          marineCount := (battle s.shared m b true rnd).1.marineCount,
          bugCount := (battle s.shared m b true rnd).1.bugCount,
          gameOver := (battle s.shared m b true rnd).1.gameOver })
    (hB : ∀ (s : GameState) p1 m q1 p2 b q2 rnd, P s → s.marineCorps = p1 ++ m :: q1 →
      s.bugSwarm = p2 ++ b :: q2 →
      P { marineCorps := p1 ++ (battle s.shared b m false rnd).2.2 :: q1,
          bugSwarm := p2 ++ (battle s.shared b m false rnd).2.1 :: q2,
          marineCount := (battle s.shared b m false rnd).1.marineCount,
          bugCount := (battle s.shared b m false rnd).1.bugCount,
          gameOver := (battle s.shared b m false rnd).1.gameOver })
    (s : GameState) (st : Step) (h : P s) : P (step s st) := by
  cases st with
  | marineTask i pick rnd =>
    rcases marineStep_cases s i pick rnd with e | ⟨p1, m, q1, p2, b, q2, e1, e2, e3⟩
    · show P (marineStep s i pick rnd); rw [e]; exact h
    · show P (marineStep s i pick rnd); rw [e3]; exact hM s p1 m q1 p2 b q2 rnd h e1 e2
  | bugTask j pick rnd =>
    rcases bugStep_cases s j pick rnd with e | ⟨p1, m, q1, p2, b, q2, e1, e2, e3⟩
    · show P (bugStep s j pick rnd); rw [e]; exact h
    · show P (bugStep s j pick rnd); rw [e3]; exact hB s p1 m q1 p2 b q2 rnd h e1 e2

theorem run_induction (P : GameState → Prop) (hstep : ∀ s st, P s → P (step s st))
    (s : GameState) (steps : List Step) (h : P s) : P (run s steps) := by
  induction steps generalizing s with
  | nil => exact h
  | cons st rest ih => exact ih (step s st) (hstep s st h)

theorem killsOf_split (p q : List Soldier) (a : Soldier) :
    killsOf (p ++ a :: q) = killsOf p ++ (a.enemies_killed ++ killsOf q) := by
  simp [killsOf]

theorem killsOK_defender_side (p1 q1 p2 q2 : List Soldier) (a a1 d d1 : Soldier)
    (hk : d1.enemies_killed = d.enemies_killed) (hn : a1.name = a.name)
    (hl : a1.alive = a.alive) (h : KillsOK (p2 ++ d :: q2) (p1 ++ a :: q1)) :
    KillsOK (p2 ++ d1 :: q2) (p1 ++ a1 :: q1) := by
  unfold KillsOK at *
  rw [killsOf_split] at *
  rw [hk]
  refine ⟨h.1, fun n hn1 => ?_⟩
  obtain ⟨h1, h2⟩ := h.2 n hn1
  constructor
  · simpa [hn] using h1
  · intro x hx hxn
    simp only [List.mem_append, List.mem_cons] at hx
    rcases hx with hx | hx | hx
    · exact h2 x (by simp [hx]) hxn
    · subst hx
      rw [hl]
      exact h2 a (by simp) (by rw [← hn]; exact hxn)
    · exact h2 x (by simp [hx]) hxn

theorem killsOK_attacker_side (p1 q1 p2 q2 : List Soldier) (a a1 d d1 : Soldier)
    (hnd : ((p2 ++ d :: q2).map (fun x => x.name)).Nodup)
    (hn : d1.name = d.name) (hl : d1.alive = true → d.alive = true)
    (hc : a1.enemies_killed = a.enemies_killed ∨
      (d.alive = true ∧ d1.alive = false ∧ a1.enemies_killed = a.enemies_killed ++ [d.name]))
    (h : KillsOK (p1 ++ a :: q1) (p2 ++ d :: q2)) :
    KillsOK (p1 ++ a1 :: q1) (p2 ++ d1 :: q2) := by
  -- facts on the old state
  have old : ∀ n ∈ killsOf (p1 ++ a :: q1), ∀ x ∈ p2 ++ d :: q2, x.name = n → x.alive = false :=
    fun n hn1 => (h.2 n hn1).2
  have frame : ∀ n ∈ killsOf (p1 ++ a :: q1),
      n ∈ (p2 ++ d1 :: q2).map (fun x => x.name) ∧
      ∀ x ∈ p2 ++ d1 :: q2, x.name = n → x.alive = false := by
    intro n hn1
    obtain ⟨h1, h2⟩ := h.2 n hn1
    constructor
    · simpa [hn] using h1
    · intro x hx hxn
      simp only [List.mem_append, List.mem_cons] at hx
      rcases hx with hx | hx | hx
      · exact h2 x (by simp [hx]) hxn
      · subst hx
        have hd : d.alive = false := h2 d (by simp) (by rw [← hn]; exact hxn)
        cases hx1 : x.alive
        · rfl
        · rw [hl hx1] at hd; exact absurd hd (by simp)
      · exact h2 x (by simp [hx]) hxn
  rcases hc with hc | ⟨hda, hd1, hc⟩
  · have e : killsOf (p1 ++ a1 :: q1) = killsOf (p1 ++ a :: q1) := by
      rw [killsOf_split, killsOf_split, hc]
    unfold KillsOK
    rw [e]
    exact ⟨h.1, frame⟩
  · have hnot : d.name ∉ killsOf (p1 ++ a :: q1) := by
      intro hmem
      have := old d.name hmem d (by simp) rfl
      rw [hda] at this
      exact absurd this (by simp)
    have hperm : (killsOf (p1 ++ a1 :: q1)).Perm (d.name :: killsOf (p1 ++ a :: q1)) := by
      rw [killsOf_split, killsOf_split, hc]
      have : killsOf p1 ++ (a.enemies_killed ++ [d.name] ++ killsOf q1)
          = (killsOf p1 ++ a.enemies_killed) ++ d.name :: killsOf q1 := by simp
      rw [this]
      have h2 : killsOf p1 ++ (a.enemies_killed ++ killsOf q1)
          = (killsOf p1 ++ a.enemies_killed) ++ killsOf q1 := by simp
      rw [h2]
      exact List.perm_middle
    unfold KillsOK
    refine ⟨hperm.nodup_iff.mpr (List.nodup_cons.mpr ⟨hnot, h.1⟩), fun n hn1 => ?_⟩
    have hn2 : n = d.name ∨ n ∈ killsOf (p1 ++ a :: q1) := by
      have := hperm.mem_iff.mp hn1
      simpa using this
    rcases hn2 with hn2 | hn2
    · subst hn2
      constructor
      · simp [hn]
      · intro x hx hxn
        simp only [List.mem_append, List.mem_cons] at hx
        have hnd1 := hnd
        simp only [List.map_append, List.map_cons] at hnd1
        rw [List.nodup_append] at hnd1
        obtain ⟨_, hq, hdisj⟩ := hnd1
        rw [List.nodup_cons] at hq
        rcases hx with hx | hx | hx
        · exfalso
          exact hdisj (List.mem_map.mpr ⟨x, hx, hxn⟩) (by simp)
        · subst hx; exact hd1
        · exfalso
          exact hq.1 (List.mem_map.mpr ⟨x, hx, hxn⟩)
    · exact frame n hn2

theorem killsOf_fresh_marines (mn : List String) : killsOf (mn.map Marine.new) = [] := by
  induction mn with
  | nil => rfl
  | cons n t ih => simp [killsOf, Marine.new]

theorem killsOf_fresh_bugs (bn : List String) : killsOf (bn.map Bug.new) = [] := by
  induction bn with
  | nil => rfl
  | cons n t ih => simp [killsOf, Bug.new]

theorem killInv_fresh (mn bn : List String) : KillInv mn bn (freshState mn bn) := by
  unfold KillInv KillsOK freshState gameLoopInit
  simp only [killsOf_fresh_marines, killsOf_fresh_bugs, List.map_map]
  refine ⟨?_, ?_, ⟨List.nodup_nil, by simp⟩, ⟨List.nodup_nil, by simp⟩⟩
  · have : ((fun x => x.name) ∘ Marine.new) = id := by funext x; rfl
    rw [this, List.map_id]
  · have : ((fun x => x.name) ∘ Bug.new) = id := by funext x; rfl
    rw [this, List.map_id]

theorem killInv_step (mn bn : List String) (hm : mn.Nodup) (hb : bn.Nodup) (s : GameState)
    (st : Step) (h : KillInv mn bn s) : KillInv mn bn (step s st) := by
  refine step_induction (KillInv mn bn) ?_ ?_ s st h
  · intro s p1 m q1 p2 b q2 rnd hs e1 e2
    obtain ⟨n1, n2, k1, k2⟩ := hs
    obtain ⟨f1, f2, f3, f4, f5, f6, f7, f8⟩ := battle_fields s.shared m b true rnd
    have hc := battle_credit s.shared m b true rnd
    rw [e1] at n1 k1 k2
    rw [e2] at n2 k1 k2
    refine ⟨?_, ?_, ?_, ?_⟩
    · rw [← n1]; simp [f1]
    · rw [← n2]; simp [f4]
    · refine killsOK_attacker_side p1 q1 p2 q2 m _ b _ (by rw [n2]; exact hb) f4 f7 ?_ k1
      rcases hc with ⟨_, c2⟩ | ⟨_, c2, c3, _, c5⟩
      · exact Or.inl c2
      · exact Or.inr ⟨c2, c3, c5⟩
    · exact killsOK_defender_side p1 q1 p2 q2 m _ b _ f5 f1 f2 k2
  · intro s p1 m q1 p2 b q2 rnd hs e1 e2
    obtain ⟨n1, n2, k1, k2⟩ := hs
    obtain ⟨f1, f2, f3, f4, f5, f6, f7, f8⟩ := battle_fields s.shared b m false rnd
    have hc := battle_credit s.shared b m false rnd
    rw [e1] at n1 k1 k2
    rw [e2] at n2 k1 k2
    refine ⟨?_, ?_, ?_, ?_⟩
    · rw [← n1]; simp [f4]
    · rw [← n2]; simp [f1]
    · exact killsOK_defender_side p2 q2 p1 q1 b _ m _ f5 f1 f2 k1
    · refine killsOK_attacker_side p2 q2 p1 q1 b _ m _ (by rw [n1]; exact hm) f4 f7 ?_ k2
      rcases hc with ⟨_, c2⟩ | ⟨_, c2, c3, _, c5⟩
      · exact Or.inl c2
      · exact Or.inr ⟨c2, c3, c5⟩

/-- What lines 239-257 do, in general: once the attack has left the defender's health
`<= 0`, the kill is credited exactly when the exchange returned `false`. -/
theorem battle_credits_iff_exchange_false (sh : Shared) (a d : Soldier) (isM : Bool)
    (rnd : Nat) (ha : a.alive = true) (hd : d.alive = true)
    (hh : (dispatchAttack a d rnd).2.health ≤ 0) :
    ((exchangeAlive (dispatchAttack a d rnd).2 false).1 = false →
      (battle sh a d isM rnd).1 = creditShared sh isM ∧
      (battle sh a d isM rnd).2.1.enemies_killed = a.enemies_killed ++ [d.name]) ∧
    ((exchangeAlive (dispatchAttack a d rnd).2 false).1 = true →
      (battle sh a d isM rnd).1 = sh ∧
      (battle sh a d isM rnd).2.1.enemies_killed = a.enemies_killed) := by
  obtain ⟨a1, a2, a3, a4, a5, a6, a7, a8, a9⟩ := attack_fields a d rnd
  have hb : battle sh a d isM rnd =
      battleClaim sh (dispatchAttack a d rnd).1 (dispatchAttack a d rnd).2 isM := by
    unfold battle; simp [ha, hd]
  rw [hb]
  unfold battleClaim creditShared
  simp only [exchangeAlive] at *
  constructor
  · intro h
    cases isM <;> simp [hh, h, a4, a5]
  · intro h
    simp [hh, h, a4]

/-! ## Kill attribution -/

/-- C1 (code departs from the claim).  In the battle of one Marine and one Bug:
(1) Bug1 rolls 10 against the fresh Marine1: the attack leaves health 0, the exchange
returns the previous value `true`, and the code credits nothing and leaves
`marineCount` at 1; (2) Bug1 rolls 9 against Marine1 at health 50: the attack leaves
health 0, the exchange returns `false`, and the code credits the kill and decrements
`marineCount` to 0. -/
theorem battle_credit_on_exchange_false_only :
    ((dispatchAttack (Bug.new "Bug1") (Marine.new "Marine1") 9).2.health ≤ 0 ∧
      (exchangeAlive (dispatchAttack (Bug.new "Bug1") (Marine.new "Marine1") 9).2 false).1
        = true ∧
      (battle (mainState 1 1).shared (Bug.new "Bug1") (Marine.new "Marine1") false
        9).2.1.enemies_killed = [] ∧
      (battle (mainState 1 1).shared (Bug.new "Bug1") (Marine.new "Marine1") false
        9).1.marineCount = 1) ∧
    ((dispatchAttack (Bug.new "Bug1") { Marine.new "Marine1" with health := 50 } 8).2.health
        ≤ 0 ∧
      (exchangeAlive
        (dispatchAttack (Bug.new "Bug1") { Marine.new "Marine1" with health := 50 } 8).2
        false).1 = false ∧
      (battle (mainState 1 1).shared (Bug.new "Bug1")
        { Marine.new "Marine1" with health := 50 } false 8).2.1.enemies_killed
        = ["Marine1"] ∧
      (battle (mainState 1 1).shared (Bug.new "Bug1")
        { Marine.new "Marine1" with health := 50 } false 8).1.marineCount = 0) := by
  decide

/-- C2.  Starting from freshly constructed rosters whose ids are pairwise distinct,
after any sequence of battle steps (each run to completion) every id occurs at most
once in the concatenation of all combatants' `enemies_killed` lists. -/
theorem kill_credit_at_most_once (mn bn : List String) (hnames : (mn ++ bn).Nodup)
    (steps : List Step) (id : String) :
    (allKills (run (freshState mn bn) steps)).count id ≤ 1 := by
  have hm : mn.Nodup := (List.nodup_append.mp hnames).1
  have hb : bn.Nodup := (List.nodup_append.mp hnames).2.1
  have hdis : mn.Disjoint bn := (List.nodup_append.mp hnames).2.2
  have hinv : KillInv mn bn (run (freshState mn bn) steps) :=
    run_induction (KillInv mn bn) (killInv_step mn bn hm hb) _ steps (killInv_fresh mn bn)
  obtain ⟨n1, n2, k1, k2⟩ := hinv
  have hnd : (allKills (run (freshState mn bn) steps)).Nodup := by
    unfold allKills
    rw [List.nodup_append]
    refine ⟨k1.1, k2.1, ?_⟩
    intro x hx1 hx2
    have h1 := (k1.2 x hx1).1
    have h2 := (k2.2 x hx2).1
    rw [n2] at h1
    rw [n1] at h2
    exact hdis h2 h1
  exact List.nodup_iff_count_le_one.mp hnd id

/-- C2 at one Marine and two Bugs that kill it: `"Marine1"` is listed once. -/
theorem kill_credit_at_most_once_witness :
    (["Marine1"] ++ ["Bug1", "Bug2"]).Nodup ∧
    (allKills (run (freshState ["Marine1"] ["Bug1", "Bug2"])
      [Step.bugTask 0 0 8, Step.bugTask 1 0 8, Step.bugTask 0 0 8])).count "Marine1" ≤ 1 :=
  ⟨by decide, kill_credit_at_most_once ["Marine1"] ["Bug1", "Bug2"] (by decide) _ _⟩

/-- C3 (code departs from the claim).  One Marine against two Bugs, the task loop
running: Marine1 hits Bug1 (roll 8) and then rolls 10 against it (the carapace leaves
Bug1 at health 0, the exchange marks it dead without credit); Bug2 then hits Marine1
twice (roll 9).  After the third iteration `gameOver` is still unset; the fourth sets
it.  In that state one Bug has `alive = false` while the Marines' `enemies_killed`
lists are empty. -/
theorem kills_sum_differs_from_dead_count :
    (runLoop (mainState 1 2)
      [Step.marineTask 0 0 7, Step.marineTask 0 0 9, Step.bugTask 1 0 8]).gameOver
      = false ∧
    (runLoop (mainState 1 2)
      [Step.marineTask 0 0 7, Step.marineTask 0 0 9, Step.bugTask 1 0 8,
        Step.bugTask 1 0 8]).gameOver = true ∧
    totalKills (runLoop (mainState 1 2)
      [Step.marineTask 0 0 7, Step.marineTask 0 0 9, Step.bugTask 1 0 8,
        Step.bugTask 1 0 8]).marineCorps = 0 ∧
    deadCount (runLoop (mainState 1 2)
      [Step.marineTask 0 0 7, Step.marineTask 0 0 9, Step.bugTask 1 0 8,
        Step.bugTask 1 0 8]).bugSwarm = 1 ∧
    totalKills (runLoop (mainState 1 2)
      [Step.marineTask 0 0 7, Step.marineTask 0 0 9, Step.bugTask 1 0 8,
        Step.bugTask 1 0 8]).bugSwarm = 1 ∧
    deadCount (runLoop (mainState 1 2)
      [Step.marineTask 0 0 7, Step.marineTask 0 0 9, Step.bugTask 1 0 8,
        Step.bugTask 1 0 8]).marineCorps = 1 := by
  decide

/-! ## The counters and `gameOver` -/

theorem step_shared_cases (s : GameState) (st : Step) :
    (step s st).shared = s.shared ∨ (step s st).shared = creditShared s.shared true ∨
    (step s st).shared = creditShared s.shared false := by
  cases st with
  | marineTask i pick rnd =>
    rcases marineStep_cases s i pick rnd with e | ⟨p1, m, q1, p2, b, q2, _, _, e3⟩
    · left; show (marineStep s i pick rnd).shared = _; rw [e]
    · show (marineStep s i pick rnd).shared = _ ∨ (marineStep s i pick rnd).shared = _ ∨ _
      rw [e3]
      rcases battle_credit s.shared m b true rnd with ⟨c1, _⟩ | ⟨_, _, _, c4, _⟩
      · left; exact c1
      · right; left; exact c4
  | bugTask j pick rnd =>
    rcases bugStep_cases s j pick rnd with e | ⟨p1, m, q1, p2, b, q2, _, _, e3⟩
    · left; show (bugStep s j pick rnd).shared = _; rw [e]
    · show (bugStep s j pick rnd).shared = _ ∨ _ ∨ (bugStep s j pick rnd).shared = _
      rw [e3]
      rcases battle_credit s.shared b m false rnd with ⟨c1, _⟩ | ⟨_, _, _, c4, _⟩
      · left; exact c1
      · right; right; exact c4

theorem shared_eq_iff (s t : GameState) :
    s.shared = t.shared ↔
      s.gameOver = t.gameOver ∧ s.marineCount = t.marineCount ∧ s.bugCount = t.bugCount := by
  simp [GameState.shared]

theorem loopInv_taskIter (s : GameState) (st : Step) (h : LoopInv s) :
    LoopInv (taskIter s st) := by
  unfold taskIter
  cases hg : s.gameOver with
  | true => simpa using h
  | false =>
    simp only [Bool.false_eq_true, if_false]
    obtain ⟨h1, h2⟩ := h.1 hg
    have key : ∀ t : GameState, t.shared = s.shared ∨ t.shared = creditShared s.shared true ∨
        t.shared = creditShared s.shared false → LoopInv t := by
      intro t ht
      have hdm : decSizeT s.marineCount = s.marineCount - 1 := by
        unfold decSizeT; rw [if_neg (by omega)]
      have hdb : decSizeT s.bugCount = s.bugCount - 1 := by
        unfold decSizeT; rw [if_neg (by omega)]
      unfold LoopInv
      rcases ht with ht | ht | ht
      · rw [shared_eq_iff] at ht
        obtain ⟨t1, t2, t3⟩ := ht
        rw [t1, t2, t3, hg]
        simp; omega
      · simp only [creditShared, GameState.shared, if_true, Shared.mk.injEq] at ht
        obtain ⟨t1, t2, t3⟩ := ht
        rw [t1, t2, t3, hdb, hg]
        by_cases hz : s.bugCount - 1 = 0
        · simp [hz]; omega
        · simp [hz]; omega
      · simp only [creditShared, GameState.shared, Bool.false_eq_true, if_false,
          Shared.mk.injEq] at ht
        obtain ⟨t1, t2, t3⟩ := ht
        rw [t1, t2, t3, hdm, hg]
        by_cases hz : s.marineCount - 1 = 0
        · simp [hz]; omega
        · simp [hz]; omega
    exact key _ (step_shared_cases s st)

theorem loopInv_runLoop (s : GameState) (steps : List Step) (h : LoopInv s) :
    LoopInv (runLoop s steps) := by
  induction steps generalizing s with
  | nil => exact h
  | cons st rest ih => exact ih (taskIter s st) (loopInv_taskIter s st h)

/-- C4.  For non-empty rosters, in every state reached by battle steps that are only
taken while `gameOver` is unset, if `gameOver` is set then exactly one of
`marineCount` and `bugCount` is zero and the other is at least 1. -/
theorem gameOver_exactly_one_side_depleted (marineCorps bugSwarm : List Soldier)
    (hm : marineCorps ≠ []) (hb : bugSwarm ≠ []) (steps : List Step)
    (hover : (runLoop (gameLoopInit marineCorps bugSwarm) steps).gameOver = true) :
    ((runLoop (gameLoopInit marineCorps bugSwarm) steps).marineCount = 0 ∧
      1 ≤ (runLoop (gameLoopInit marineCorps bugSwarm) steps).bugCount) ∨
    ((runLoop (gameLoopInit marineCorps bugSwarm) steps).bugCount = 0 ∧
      1 ≤ (runLoop (gameLoopInit marineCorps bugSwarm) steps).marineCount) := by
  have h0 : LoopInv (gameLoopInit marineCorps bugSwarm) := by
    unfold LoopInv gameLoopInit
    have h1 := List.length_pos.mpr hm
    have h2 := List.length_pos.mpr hb
    simp only [Bool.false_eq_true, false_implies, and_true]
    intro _; omega
  exact (loopInv_runLoop _ steps h0).2 hover

/-- C4 at one Marine killed by one Bug: `marineCount = 0`, `bugCount = 1`. -/
theorem gameOver_exactly_one_side_depleted_witness :
    (mainState 1 1).marineCorps ≠ [] ∧ (mainState 1 1).bugSwarm ≠ [] ∧
    (runLoop (mainState 1 1) [Step.bugTask 0 0 8, Step.bugTask 0 0 8]).gameOver = true ∧
    (((runLoop (mainState 1 1) [Step.bugTask 0 0 8, Step.bugTask 0 0 8]).marineCount = 0 ∧
      1 ≤ (runLoop (mainState 1 1) [Step.bugTask 0 0 8, Step.bugTask 0 0 8]).bugCount) ∨
    ((runLoop (mainState 1 1) [Step.bugTask 0 0 8, Step.bugTask 0 0 8]).bugCount = 0 ∧
      1 ≤ (runLoop (mainState 1 1) [Step.bugTask 0 0 8, Step.bugTask 0 0 8]).marineCount)) :=
  ⟨by decide, by decide, by decide,
    gameOver_exactly_one_side_depleted (mainState 1 1).marineCorps (mainState 1 1).bugSwarm
      (by decide) (by decide) [Step.bugTask 0 0 8, Step.bugTask 0 0 8] (by decide)⟩
theorem aliveCount_split (p q : List Soldier) (a : Soldier) :
    aliveCount (p ++ a :: q) = aliveCount p + aliveCount q + (if a.alive = true then 1 else 0) := by
  unfold aliveCount
  rw [List.countP_append, List.countP_cons]
  omega

theorem aliveCount_le_length (l : List Soldier) : aliveCount l ≤ l.length :=
  List.countP_le_length _

/-- Counter bookkeeping of one battle: the attackers' side keeps its number of living
members; the defenders' counter keeps bounding theirs. -/
theorem countInv_battle (p1 q1 p2 q2 : List Soldier) (a d : Soldier) (sh : Shared)
    (isM : Bool) (rnd : Nat) (ca cd : Nat) (hca : aliveCount (p1 ++ a :: q1) ≤ ca)
    (hcd : aliveCount (p2 ++ d :: q2) ≤ cd) :
    aliveCount (p1 ++ (battle sh a d isM rnd).2.1 :: q1) ≤ ca ∧
    ((battle sh a d isM rnd).1 = sh ∧
        aliveCount (p2 ++ (battle sh a d isM rnd).2.2 :: q2) ≤ cd ∨
      (battle sh a d isM rnd).1 = creditShared sh isM ∧ 1 ≤ cd ∧
        aliveCount (p2 ++ (battle sh a d isM rnd).2.2 :: q2) ≤ cd - 1) := by
  obtain ⟨f1, f2, f3, f4, f5, f6, f7, f8⟩ := battle_fields sh a d isM rnd
  rw [aliveCount_split] at hca hcd ⊢
  rw [aliveCount_split]
  refine ⟨by rw [f2]; exact hca, ?_⟩
  rcases battle_credit sh a d isM rnd with ⟨c1, _⟩ | ⟨_, c2, c3, c4, _⟩
  · left
    refine ⟨c1, ?_⟩
    by_cases hx : (battle sh a d isM rnd).2.2.alive = true
    · rw [if_pos hx]; rw [if_pos (f7 hx)] at hcd; exact hcd
    · rw [if_neg hx]; split_ifs at hcd <;> omega
  · right
    rw [c3]
    rw [if_pos c2] at hcd
    simp only [Bool.false_eq_true, if_false]
    exact ⟨c4, by omega, by omega⟩

theorem countInv_step (s : GameState) (st : Step) (h : CountInv s) : CountInv (step s st) := by
  refine step_induction CountInv ?_ ?_ s st h
  · intro s p1 m q1 p2 b q2 rnd hs e1 e2
    obtain ⟨h1, h2, h3⟩ := hs
    rw [e1] at h1
    rw [e2] at h2
    obtain ⟨k1, k2⟩ := countInv_battle p1 q1 p2 q2 m b s.shared true rnd _ _ h1 h2
    unfold CountInv
    rcases k2 with ⟨c1, c2⟩ | ⟨c1, c2, c3⟩
    · rw [c1]; exact ⟨k1, c2, h3⟩
    · rw [c1]
      have hd : decSizeT s.bugCount = s.bugCount - 1 := by
        unfold decSizeT; rw [if_neg (by omega)]
      simp only [creditShared, GameState.shared, if_true, hd]
      refine ⟨k1, c3, ?_⟩
      by_cases hz : s.bugCount - 1 = 0
      · simp [hz]
      · simp only [hz, if_false, or_false]
        rw [h3]
        constructor
        · intro hh; rcases hh with hh | hh
          · exact hh
          · omega
        · intro hh; exact Or.inl hh
  · intro s p1 m q1 p2 b q2 rnd hs e1 e2
    obtain ⟨h1, h2, h3⟩ := hs
    rw [e1] at h1
    rw [e2] at h2
    obtain ⟨k1, k2⟩ := countInv_battle p2 q2 p1 q1 b m s.shared false rnd _ _ h2 h1
    unfold CountInv
    rcases k2 with ⟨c1, c2⟩ | ⟨c1, c2, c3⟩
    · rw [c1]; exact ⟨c2, k1, h3⟩
    · rw [c1]
      have hd : decSizeT s.marineCount = s.marineCount - 1 := by
        unfold decSizeT; rw [if_neg (by omega)]
      simp only [creditShared, GameState.shared, Bool.false_eq_true, if_false, hd]
      refine ⟨c3, k1, ?_⟩
      by_cases hz : s.marineCount - 1 = 0
      · simp [hz]
      · simp only [hz, if_false, false_or]
        rw [h3]
        constructor
        · intro hh; rcases hh with hh | hh
          · omega
          · exact hh
        · intro hh; exact Or.inr hh

/-- C5.  For rosters that both start non-empty, in every state reachable by battle
steps the `gameOver` flag is true if and only if `marineCount = 0` or `bugCount = 0`. -/
theorem gameOver_iff_a_count_is_zero (marineCorps bugSwarm : List Soldier)
    (hm : marineCorps ≠ []) (hb : bugSwarm ≠ []) (steps : List Step) :
    (run (gameLoopInit marineCorps bugSwarm) steps).gameOver = true ↔
      (run (gameLoopInit marineCorps bugSwarm) steps).marineCount = 0 ∨
      (run (gameLoopInit marineCorps bugSwarm) steps).bugCount = 0 := by
  have h0 : CountInv (gameLoopInit marineCorps bugSwarm) := by
    unfold CountInv gameLoopInit
    have h1 := List.length_pos.mpr hm
    have h2 := List.length_pos.mpr hb
    refine ⟨aliveCount_le_length _, aliveCount_le_length _, ?_⟩
    simp only [Bool.false_eq_true, false_iff]
    omega
  exact (run_induction CountInv countInv_step _ steps h0).2.2

/-- C5 at one Marine killed by one Bug. -/
theorem gameOver_iff_a_count_is_zero_witness :
    (mainState 1 1).marineCorps ≠ [] ∧ (mainState 1 1).bugSwarm ≠ [] ∧
    ((run (mainState 1 1) [Step.bugTask 0 0 8, Step.bugTask 0 0 8]).gameOver = true ↔
      (run (mainState 1 1) [Step.bugTask 0 0 8, Step.bugTask 0 0 8]).marineCount = 0 ∨
      (run (mainState 1 1) [Step.bugTask 0 0 8, Step.bugTask 0 0 8]).bugCount = 0) :=
  ⟨by decide, by decide,
    gameOver_iff_a_count_is_zero (mainState 1 1).marineCorps (mainState 1 1).bugSwarm
      (by decide) (by decide) [Step.bugTask 0 0 8, Step.bugTask 0 0 8]⟩

/-! ## Termination -/

/-- Once every Marine has `alive = false`, every battle step leaves the state as it is
(the guard of line 230 returns at once). -/
theorem step_frozen_marines_dead (s : GameState)
    (h : ∀ m ∈ s.marineCorps, m.alive = false) (st : Step) : step s st = s := by
  cases st with
  | marineTask i pick rnd =>
    show marineStep s i pick rnd = s
    rcases marineStep_cases s i pick rnd with e | ⟨p1, m, q1, p2, b, q2, e1, e2, e3⟩
    · exact e
    · have hm : m.alive = false := h m (by rw [e1]; simp)
      rw [e3, battle_guard s.shared m b true rnd (Or.inl hm)]
      cases s
      simp only [GameState.shared] at *
      simp [e1, e2]
  | bugTask j pick rnd =>
    show bugStep s j pick rnd = s
    rcases bugStep_cases s j pick rnd with e | ⟨p1, m, q1, p2, b, q2, e1, e2, e3⟩
    · exact e
    · have hm : m.alive = false := h m (by rw [e1]; simp)
      rw [e3, battle_guard s.shared b m false rnd (Or.inr hm)]
      cases s
      simp only [GameState.shared] at *
      simp [e1, e2]

theorem run_frozen_marines_dead (s : GameState)
    (h : ∀ m ∈ s.marineCorps, m.alive = false) (steps : List Step) : run s steps = s := by
  induction steps with
  | nil => rfl
  | cons st rest ih =>
    show run (step s st) rest = s
    rw [step_frozen_marines_dead s h st]
    exact ih

/-- C6 (code departs from the claim).  Three Bugs against one Marine: Bug1 rolls 10
against the fresh Marine1.  `Bug::slay` brings the health to 0 without `takeDamage`,
the exchange marks Marine1 dead and returns `true`, so no kill is credited and
`marineCount` stays 1.  In the state reached `gameOver` is unset, and it stays unset
after every finite sequence of further battle steps. -/
theorem livelock_three_bugs_one_marine :
    (run (mainState 1 3) [Step.bugTask 0 0 9]).gameOver = false ∧
    (run (mainState 1 3) [Step.bugTask 0 0 9]).marineCount = 1 ∧
    (run (mainState 1 3) [Step.bugTask 0 0 9]).marineCorps.map (fun x => x.alive)
      = [false] ∧
    ∀ steps : List Step,
      (run (run (mainState 1 3) [Step.bugTask 0 0 9]) steps).gameOver = false := by
  refine ⟨by decide, by decide, by decide, fun steps => ?_⟩
  rw [run_frozen_marines_dead _ (by decide) steps]
  decide
/-! ## Two calls in flight -/

theorem set_same {α : Type} (l : List α) (i : Nat) (x : α) (h : l[i]? = some x) :
    l.set i x = l := by
  obtain ⟨p, q, e, _, f⟩ := set_split l i x h
  rw [f x, ← e]

theorem getElem?_set_some {α : Type} (l : List α) (i : Nat) (x y : α) (h : l[i]? = some x) :
    (l.set i y)[i]? = some y := by
  have hlt : i < l.length := by
    by_contra hc
    rw [List.getElem?_eq_none (by omega)] at h
    exact absurd h (by simp)
  exact List.getElem?_set_self hlt

/-- The phases of a Marine's call, run without interruption, are the battle step. -/
theorem sequentialCall_marine (s : GameState) (i pick rnd : Nat) :
    sequentialCall s (Call.mk true i (pick % s.bugSwarm.length) rnd Pc.guard)
      = marineStep s i pick rnd := by
  unfold sequentialCall marineStep
  cases hm : s.marineCorps[i]? with
  | none => simp [microStep, attackerOf, defenderOf, hm]
  | some m =>
    cases hb : s.bugSwarm[pick % s.bugSwarm.length]? with
    | none => simp [microStep, attackerOf, defenderOf, hm, hb]
    | some b =>
      by_cases hg : m.alive = false ∨ b.alive = false
      · have e1 : microStep s (Call.mk true i (pick % s.bugSwarm.length) rnd Pc.guard)
            = (s, (Call.mk true i (pick % s.bugSwarm.length) rnd Pc.done)) := by
          rcases hg with hg | hg <;> simp [microStep, attackerOf, defenderOf, hm, hb, hg]
        have e2 : microStep s (Call.mk true i (pick % s.bugSwarm.length) rnd Pc.done)
            = (s, (Call.mk true i (pick % s.bugSwarm.length) rnd Pc.done)) := by
          simp [microStep, attackerOf, defenderOf, hm, hb]
        simp only [e1, e2, battle_guard s.shared m b true rnd hg, set_same _ _ _ hm,
          set_same _ _ _ hb]
        rfl
      · have ha : m.alive = true := by
          cases h : m.alive <;> simp_all
        have hd : b.alive = true := by
          cases h : b.alive <;> simp_all
        have e1 : microStep s (Call.mk true i (pick % s.bugSwarm.length) rnd Pc.guard)
            = (s, (Call.mk true i (pick % s.bugSwarm.length) rnd Pc.attack)) := by
          simp [microStep, attackerOf, defenderOf, hm, hb, ha, hd]
        have e2 : microStep s (Call.mk true i (pick % s.bugSwarm.length) rnd Pc.attack)
            = (writeBack s (Call.mk true i (pick % s.bugSwarm.length) rnd Pc.attack) s.shared
                (dispatchAttack m b rnd).1 (dispatchAttack m b rnd).2,
               (Call.mk true i (pick % s.bugSwarm.length) rnd Pc.claim)) := by
          simp [microStep, attackerOf, defenderOf, hm, hb]
        have hbt : battle s.shared m b true rnd =
            battleClaim s.shared (dispatchAttack m b rnd).1 (dispatchAttack m b rnd).2 true := by
          unfold battle; simp [ha, hd]
        simp only [e1, e2, hbt]
        simp [microStep, attackerOf, defenderOf, writeBack, getElem?_set_some _ _ _ _ hm,
          getElem?_set_some _ _ _ _ hb, List.set_set, GameState.shared]
/-- The phases of a Bug's call, run without interruption, are the battle step. -/
theorem sequentialCall_bug (s : GameState) (j pick rnd : Nat) :
    sequentialCall s (Call.mk false j (pick % s.marineCorps.length) rnd Pc.guard)
      = bugStep s j pick rnd := by
  unfold sequentialCall bugStep
  cases hb : s.bugSwarm[j]? with
  | none => simp [microStep, attackerOf, defenderOf, hb]
  | some b =>
    cases hm : s.marineCorps[pick % s.marineCorps.length]? with
    | none => simp [microStep, attackerOf, defenderOf, hm, hb]
    | some m =>
      by_cases hg : b.alive = false ∨ m.alive = false
      · have e1 : microStep s (Call.mk false j (pick % s.marineCorps.length) rnd Pc.guard)
            = (s, (Call.mk false j (pick % s.marineCorps.length) rnd Pc.done)) := by
          rcases hg with hg | hg <;> simp [microStep, attackerOf, defenderOf, hm, hb, hg]
        have e2 : microStep s (Call.mk false j (pick % s.marineCorps.length) rnd Pc.done)
            = (s, (Call.mk false j (pick % s.marineCorps.length) rnd Pc.done)) := by
          simp [microStep, attackerOf, defenderOf, hm, hb]
        simp only [e1, e2, battle_guard s.shared b m false rnd hg, set_same _ _ _ hm,
          set_same _ _ _ hb]
        rfl
      · have ha : b.alive = true := by
          cases h : b.alive <;> simp_all
        have hd : m.alive = true := by
          cases h : m.alive <;> simp_all
        have e1 : microStep s (Call.mk false j (pick % s.marineCorps.length) rnd Pc.guard)
            = (s, (Call.mk false j (pick % s.marineCorps.length) rnd Pc.attack)) := by
          simp [microStep, attackerOf, defenderOf, hm, hb, ha, hd]
        have e2 : microStep s (Call.mk false j (pick % s.marineCorps.length) rnd Pc.attack)
            = (writeBack s (Call.mk false j (pick % s.marineCorps.length) rnd Pc.attack)
                s.shared (dispatchAttack b m rnd).1 (dispatchAttack b m rnd).2,
               (Call.mk false j (pick % s.marineCorps.length) rnd Pc.claim)) := by
          simp [microStep, attackerOf, defenderOf, hm, hb]
        have hbt : battle s.shared b m false rnd =
            battleClaim s.shared (dispatchAttack b m rnd).1 (dispatchAttack b m rnd).2
              false := by
          unfold battle; simp [ha, hd]
        simp only [e1, e2, hbt]
        simp [microStep, attackerOf, defenderOf, writeBack, getElem?_set_some _ _ _ _ hm,
          getElem?_set_some _ _ _ _ hb, List.set_set, GameState.shared]

/-- C7 (code departs from the claim).  Two Marines and two Bugs; Bug1 has hit Marine1
once (health 50).  Bug1 and Bug2 then each call `battle` against the living Marine1
with a roll of 9, and the two calls interleave phase by phase: both pass the guard,
both attacks land (health 0, then -50, `takeDamage` clearing `alive`), and both
exchanges return `false`.  Both attackers' `enemies_killed` grow by one and
`marineCount` drops from 2 to 0 (setting `gameOver` with Marine2 alive). -/
theorem double_credit_under_interleaving :
    (run (mainState 2 2) [Step.bugTask 0 0 8]).marineCorps.map (fun x => (x.alive, x.health))
      = [(true, 50), (true, 100)] ∧
    (run (mainState 2 2) [Step.bugTask 0 0 8]).bugSwarm.map (fun x => x.enemies_killed)
      = [[], []] ∧
    (run (mainState 2 2) [Step.bugTask 0 0 8]).marineCount = 2 ∧
    (interleave (run (mainState 2 2) [Step.bugTask 0 0 8])
      (Call.mk false 0 0 8 Pc.guard) (Call.mk false 1 0 8 Pc.guard)
      [false, true, false]).1.marineCorps.map (fun x => x.health) = [0, 100] ∧
    (interleave (run (mainState 2 2) [Step.bugTask 0 0 8])
      (Call.mk false 0 0 8 Pc.guard) (Call.mk false 1 0 8 Pc.guard)
      [false, true, false, true]).1.marineCorps.map (fun x => x.health) = [-50, 100] ∧
    (interleave (run (mainState 2 2) [Step.bugTask 0 0 8])
      (Call.mk false 0 0 8 Pc.guard) (Call.mk false 1 0 8 Pc.guard)
      [false, true, false, true, false, true]).1.bugSwarm.map (fun x => x.enemies_killed)
      = [["Marine1"], ["Marine1"]] ∧
    (interleave (run (mainState 2 2) [Step.bugTask 0 0 8])
      (Call.mk false 0 0 8 Pc.guard) (Call.mk false 1 0 8 Pc.guard)
      [false, true, false, true, false, true]).1.marineCount = 0 ∧
    (interleave (run (mainState 2 2) [Step.bugTask 0 0 8])
      (Call.mk false 0 0 8 Pc.guard) (Call.mk false 1 0 8 Pc.guard)
      [false, true, false, true, false, true]).1.marineCorps.map
        (fun x => (x.alive, x.health)) = [(false, -50), (true, 100)] ∧
    (interleave (run (mainState 2 2) [Step.bugTask 0 0 8])
      (Call.mk false 0 0 8 Pc.guard) (Call.mk false 1 0 8 Pc.guard)
      [false, true, false, true, false, true]).1.gameOver = true := by
  decide
/-! ## Liveness and health -/

theorem set_keeps_dead (l : List Soldier) (i k : Nat) (m m1 x : Soldier)
    (hm : l[i]? = some m) (hmm : m.alive = false → m1.alive = false)
    (hx : l[k]? = some x) (hxa : x.alive = false) :
    ∃ y, (l.set i m1)[k]? = some y ∧ y.alive = false := by
  by_cases hik : i = k
  · subst hik
    rw [hm] at hx
    have e : m = x := Option.some.inj hx
    subst e
    exact ⟨m1, getElem?_set_some l i m m1 hm, hmm hxa⟩
  · exact ⟨x, by rw [List.getElem?_set_ne hik]; exact hx, hxa⟩

theorem battle_keeps_dead (sh : Shared) (a d : Soldier) (isM : Bool) (rnd : Nat) :
    (a.alive = false → (battle sh a d isM rnd).2.1.alive = false) ∧
    (d.alive = false → (battle sh a d isM rnd).2.2.alive = false) := by
  obtain ⟨f1, f2, f3, f4, f5, f6, f7, f8⟩ := battle_fields sh a d isM rnd
  constructor
  · intro h; rw [f2]; exact h
  · intro h
    cases hx : (battle sh a d isM rnd).2.2.alive
    · rfl
    · rw [f7 hx] at h; exact absurd h (by simp)

theorem step_keeps_dead (s : GameState) (st : Step) (k : Nat) (x : Soldier)
    (hx : x.alive = false) :
    (s.marineCorps[k]? = some x →
      ∃ y, (step s st).marineCorps[k]? = some y ∧ y.alive = false) ∧
    (s.bugSwarm[k]? = some x →
      ∃ y, (step s st).bugSwarm[k]? = some y ∧ y.alive = false) := by
  cases st with
  | marineTask i pick rnd =>
    show (_ → ∃ y, (marineStep s i pick rnd).marineCorps[k]? = some y ∧ _) ∧
      (_ → ∃ y, (marineStep s i pick rnd).bugSwarm[k]? = some y ∧ _)
    unfold marineStep
    cases hm : s.marineCorps[i]? with
    | none => exact ⟨fun h => ⟨x, h, hx⟩, fun h => ⟨x, h, hx⟩⟩
    | some m =>
      cases hb : s.bugSwarm[pick % s.bugSwarm.length]? with
      | none => exact ⟨fun h => ⟨x, h, hx⟩, fun h => ⟨x, h, hx⟩⟩
      | some b =>
        obtain ⟨k1, k2⟩ := battle_keeps_dead s.shared m b true rnd
        exact ⟨fun h => set_keeps_dead _ _ _ _ _ _ hm k1 h hx,
          fun h => set_keeps_dead _ _ _ _ _ _ hb k2 h hx⟩
  | bugTask j pick rnd =>
    show (_ → ∃ y, (bugStep s j pick rnd).marineCorps[k]? = some y ∧ _) ∧
      (_ → ∃ y, (bugStep s j pick rnd).bugSwarm[k]? = some y ∧ _)
    unfold bugStep
    cases hb : s.bugSwarm[j]? with
    | none => exact ⟨fun h => ⟨x, h, hx⟩, fun h => ⟨x, h, hx⟩⟩
    | some b =>
      cases hm : s.marineCorps[pick % s.marineCorps.length]? with
      | none => exact ⟨fun h => ⟨x, h, hx⟩, fun h => ⟨x, h, hx⟩⟩
      | some m =>
        obtain ⟨k1, k2⟩ := battle_keeps_dead s.shared b m false rnd
        exact ⟨fun h => set_keeps_dead _ _ _ _ _ _ hm k2 h hx,
          fun h => set_keeps_dead _ _ _ _ _ _ hb k1 h hx⟩

/-- C8.  No operation of the thread-pool engine changes a combatant's `alive` flag
from false to true: a combatant `x` with `alive = false` still has `alive = false`
after `Soldier::takeDamage`, `Bug::takeDamage` (and the virtual call), after being the
target of `slay` or `attack` of either class, after attacking, after a `battle` call
in either role, and, as a roster member, after any battle step. -/
theorem alive_never_revived (x : Soldier) (hx : x.alive = false) :
    (∀ d : Int, (Soldier.takeDamage x d).alive = false ∧ (Bug.takeDamage x d).alive = false ∧
      (dispatchTakeDamage x d).alive = false) ∧
    (∀ a : Soldier, (Soldier.slay a x).alive = false ∧ (Marine.slay a x).alive = false ∧
      (Bug.slay a x).alive = false) ∧
    (∀ (o : Soldier) (rnd : Nat),
      (Marine.attack x o rnd).1.alive = false ∧ (Marine.attack o x rnd).2.alive = false ∧
      (Bug.attack x o rnd).1.alive = false ∧ (Bug.attack o x rnd).2.alive = false) ∧
    (∀ (sh : Shared) (o : Soldier) (isM : Bool) (rnd : Nat),
      (battle sh x o isM rnd).2.1.alive = false ∧ (battle sh o x isM rnd).2.2.alive = false) ∧
    (∀ (s : GameState) (st : Step) (k : Nat),
      (s.marineCorps[k]? = some x →
        ∃ y, (step s st).marineCorps[k]? = some y ∧ y.alive = false) ∧
      (s.bugSwarm[k]? = some x →
        ∃ y, (step s st).bugSwarm[k]? = some y ∧ y.alive = false)) := by
  have td : ∀ d : Int, (Soldier.takeDamage x d).alive = false ∧
      (Bug.takeDamage x d).alive = false ∧ (dispatchTakeDamage x d).alive = false := by
    intro d
    unfold dispatchTakeDamage Soldier.takeDamage Bug.takeDamage
    refine ⟨?_, ?_, ?_⟩
    · simp only []; split_ifs <;> simp [hx]
    · simp only []; split_ifs <;> simp [hx]
    · cases x.kind <;> simp only [] <;> split_ifs <;> simp [hx]
  refine ⟨td, ?_, ?_, ?_, ?_⟩
  · intro a
    exact ⟨(td 100).2.2, (td (a.damage * 2)).2.2, hx⟩
  · intro o rnd
    unfold Marine.attack Bug.attack Marine.slay Bug.slay
    refine ⟨?_, ?_, ?_, ?_⟩
    · simp only []; split_ifs <;> simp [hx]
    · simp only []; split_ifs <;> simp [hx, (td _).2.2]
    · simp only []; split_ifs <;> simp [hx]
    · simp only []; split_ifs <;> simp [hx, (td _).2.2]
  · intro sh o isM rnd
    exact ⟨(battle_keeps_dead sh x o isM rnd).1 hx, (battle_keeps_dead sh o x isM rnd).2 hx⟩
  · intro s st k
    exact step_keeps_dead s st k x hx

/-- C8 at a dead Marine: healed by a negative damage, and attacked again in its roster. -/
theorem alive_never_revived_witness :
    ({ Marine.new "Marine1" with health := 0, alive := false } : Soldier).alive = false ∧
    (Soldier.takeDamage { Marine.new "Marine1" with health := 0, alive := false }
      (-200)).alive = false ∧
    (run (mainState 1 1) [Step.bugTask 0 0 9]).marineCorps[0]?
      = some { Marine.new "Marine1" with health := 0, alive := false } ∧
    ∃ y, (step (run (mainState 1 1) [Step.bugTask 0 0 9]) (Step.bugTask 0 0 9)).marineCorps[0]?
      = some y ∧ y.alive = false :=
  ⟨rfl,
    ((alive_never_revived { Marine.new "Marine1" with health := 0, alive := false } rfl).1
      (-200)).1,
    by decide,
    ((alive_never_revived { Marine.new "Marine1" with health := 0, alive := false }
      rfl).2.2.2.2 (run (mainState 1 1) [Step.bugTask 0 0 9]) (Step.bugTask 0 0 9) 0).1
      (by decide)⟩
theorem deadInv_lists (p q : List Soldier) (a a1 : Soldier)
    (h : ∀ x ∈ p ++ a :: q, x.alive = false → x.health ≤ 0)
    (ha : a1.alive = false → a1.health ≤ 0) :
    ∀ x ∈ p ++ a1 :: q, x.alive = false → x.health ≤ 0 := by
  intro x hx hd
  simp only [List.mem_append, List.mem_cons] at hx
  rcases hx with hx | hx | hx
  · exact h x (by simp [hx]) hd
  · subst hx; exact ha hd
  · exact h x (by simp [hx]) hd

theorem deadInv_battle (sh : Shared) (a d : Soldier) (isM : Bool) (rnd : Nat)
    (ha : a.alive = false → a.health ≤ 0) (hd : d.alive = false → d.health ≤ 0) :
    ((battle sh a d isM rnd).2.1.alive = false → (battle sh a d isM rnd).2.1.health ≤ 0) ∧
    ((battle sh a d isM rnd).2.2.alive = false → (battle sh a d isM rnd).2.2.health ≤ 0) := by
  obtain ⟨f1, f2, f3, f4, f5, f6, f7, f8⟩ := battle_fields sh a d isM rnd
  exact ⟨by rw [f2, f3]; exact ha, f8 hd⟩

theorem deadInv_step (s : GameState) (st : Step) (h : DeadInv s) : DeadInv (step s st) := by
  refine step_induction DeadInv ?_ ?_ s st h
  · intro s p1 m q1 p2 b q2 rnd hs e1 e2
    obtain ⟨h1, h2⟩ := hs
    rw [e1] at h1
    rw [e2] at h2
    obtain ⟨k1, k2⟩ := deadInv_battle s.shared m b true rnd (h1 m (by simp)) (h2 b (by simp))
    exact ⟨deadInv_lists p1 q1 m _ h1 k1, deadInv_lists p2 q2 b _ h2 k2⟩
  · intro s p1 m q1 p2 b q2 rnd hs e1 e2
    obtain ⟨h1, h2⟩ := hs
    rw [e1] at h1
    rw [e2] at h2
    obtain ⟨k1, k2⟩ := deadInv_battle s.shared b m false rnd (h2 b (by simp)) (h1 m (by simp))
    exact ⟨deadInv_lists p1 q1 m _ h1 k2, deadInv_lists p2 q2 b _ h2 k1⟩

theorem deadInv_fresh (mn bn : List String) : DeadInv (freshState mn bn) := by
  unfold DeadInv freshState gameLoopInit
  constructor
  · intro x hx hd
    obtain ⟨n, _, e⟩ := List.mem_map.mp hx
    subst e
    exact absurd hd (by simp [Marine.new])
  · intro x hx hd
    obtain ⟨n, _, e⟩ := List.mem_map.mp hx
    subst e
    exact absurd hd (by simp [Bug.new])

/-- C9.  In every state reachable from freshly constructed rosters by battle steps,
every combatant (Marine or Bug) whose `alive` flag is false has `health <= 0`. -/
theorem dead_implies_health_nonpositive (mn bn : List String) (steps : List Step)
    (x : Soldier)
    (hx : x ∈ (run (freshState mn bn) steps).marineCorps ∨
      x ∈ (run (freshState mn bn) steps).bugSwarm)
    (hd : x.alive = false) : x.health ≤ 0 := by
  have hinv : DeadInv (run (freshState mn bn) steps) :=
    run_induction DeadInv deadInv_step _ steps (deadInv_fresh mn bn)
  rcases hx with hx | hx
  · exact hinv.1 x hx hd
  · exact hinv.2 x hx hd

/-- C9 at the Bug killed by a hit and a critical hit of one Marine. -/
theorem dead_implies_health_nonpositive_witness :
    (({ Bug.new "Bug1" with health := 0, carapace := false, alive := false } : Soldier) ∈
        (run (freshState ["Marine1"] ["Bug1"])
          [Step.marineTask 0 0 7, Step.marineTask 0 0 9]).marineCorps ∨
      ({ Bug.new "Bug1" with health := 0, carapace := false, alive := false } : Soldier) ∈
        (run (freshState ["Marine1"] ["Bug1"])
          [Step.marineTask 0 0 7, Step.marineTask 0 0 9]).bugSwarm) ∧
    ({ Bug.new "Bug1" with health := 0, carapace := false, alive := false } : Soldier).alive
      = false ∧
    ({ Bug.new "Bug1" with health := 0, carapace := false, alive := false } : Soldier).health
      ≤ 0 :=
  ⟨by decide, rfl,
    dead_implies_health_nonpositive ["Marine1"] ["Bug1"]
      [Step.marineTask 0 0 7, Step.marineTask 0 0 9]
      { Bug.new "Bug1" with health := 0, carapace := false, alive := false }
      (by decide) rfl⟩

/-- C10 fails as stated: a living Bug at health 50 with its carapace (a fresh Bug hit
once) that takes 100 damage comes out of `Bug::takeDamage` with the carapace consumed
and `alive` still true, but with health 0, which is not strictly positive. -/
theorem carapace_health_not_positive :
    (Bug.takeDamage (Bug.new "Bug1") 50).alive = true ∧
    (Bug.takeDamage (Bug.new "Bug1") 50).carapace = true ∧
    (Bug.takeDamage (Bug.new "Bug1") 50).health - 100 ≤ 0 ∧
    (Bug.takeDamage (Bug.takeDamage (Bug.new "Bug1") 50) 100).carapace = false ∧
    (Bug.takeDamage (Bug.takeDamage (Bug.new "Bug1") 50) 100).alive = true ∧
    ¬ (0 < (Bug.takeDamage (Bug.takeDamage (Bug.new "Bug1") 50) 100).health) := by
  decide

/-- C10, amended.  For every living Bug whose carapace is still available and every
damage amount `d` that brings its health `h` to `h - d <= 0`, after `Bug::takeDamage`
the carapace is consumed, `alive` is still true, and health is `h - d + 50`; it is
strictly positive exactly when `d < h + 50`. -/
theorem carapace_restores_fifty (b : Soldier) (d : Int) (ha : b.alive = true)
    (hc : b.carapace = true) (hh : b.health - d ≤ 0) :
    (Bug.takeDamage b d).carapace = false ∧ (Bug.takeDamage b d).alive = true ∧
    (Bug.takeDamage b d).health = b.health - d + 50 ∧
    (0 < (Bug.takeDamage b d).health ↔ d < b.health + 50) := by
  unfold Bug.takeDamage
  simp only [hh, hc, and_self, if_true, ha, true_and]
  omega

/-- C10, amended, at a fresh Bug taking a critical hit of 100. -/
theorem carapace_restores_fifty_witness :
    (Bug.new "Bug1").alive = true ∧ (Bug.new "Bug1").carapace = true ∧
    (Bug.new "Bug1").health - 100 ≤ 0 ∧
    ((Bug.takeDamage (Bug.new "Bug1") 100).carapace = false ∧
      (Bug.takeDamage (Bug.new "Bug1") 100).alive = true ∧
      (Bug.takeDamage (Bug.new "Bug1") 100).health = (Bug.new "Bug1").health - 100 + 50 ∧
      (0 < (Bug.takeDamage (Bug.new "Bug1") 100).health ↔ (100 : Int) < (Bug.new "Bug1").health + 50)) :=
  ⟨rfl, rfl, by decide, carapace_restores_fifty (Bug.new "Bug1") 100 rfl rfl (by decide)⟩

/-! ## `takeDamage` and `attack` -/

theorem bug_takeDamage_carapace (b : Soldier) (d : Int) :
    (b.carapace = false → (Bug.takeDamage b d).carapace = false ∧
      (Bug.takeDamage b d).health = b.health - d) ∧
    ((Bug.takeDamage b d).health = b.health - d + 50 →
      b.carapace = true ∧ (Bug.takeDamage b d).carapace = false) ∧
    ((Bug.takeDamage b d).health = b.health - d ∨
      (Bug.takeDamage b d).health = b.health - d + 50) := by
  unfold Bug.takeDamage
  simp only []
  split_ifs <;> simp_all

theorem bug_restorations_bound (b : Soldier) (amounts : List Int) :
    Bug.restorations b amounts ≤ (if b.carapace = true then 1 else 0) := by
  induction amounts generalizing b with
  | nil => simp [Bug.restorations]
  | cons d rest ih =>
    obtain ⟨h1, h2, _⟩ := bug_takeDamage_carapace b d
    have ih1 := ih (Bug.takeDamage b d)
    unfold Bug.restorations
    by_cases hr : (Bug.takeDamage b d).health = b.health - d + 50
    · obtain ⟨hc, hc1⟩ := h2 hr
      rw [hc1] at ih1
      rw [if_pos hr, if_pos hc]
      simp only [Bool.false_eq_true, if_false] at ih1
      omega
    · rw [if_neg hr]
      by_cases hc : b.carapace = true
      · rw [if_pos hc]
        split_ifs at ih1 <;> omega
      · have hc0 : b.carapace = false := by
          cases h : b.carapace <;> simp_all
        rw [(h1 hc0).1] at ih1
        rw [if_neg hc]
        simpa using ih1

theorem bug_takeDamageSeq_carapace (b : Soldier) (amounts : List Int)
    (h : b.carapace = false) : (Bug.takeDamageSeq b amounts).carapace = false := by
  induction amounts generalizing b with
  | nil => exact h
  | cons d rest ih =>
    exact ih (Bug.takeDamage b d) ((bug_takeDamage_carapace b d).1 h).1

/-- C11.  Over any sequence of `takeDamage` calls on one Bug (the amounts may be
any integers, non-negative ones included), the `+50` health restoration is applied
in at most one call, and once the carapace has become false after some calls it is
false after every later call. -/
theorem carapace_restores_at_most_once (b : Soldier) (amounts : List Int) :
    Bug.restorations b amounts ≤ 1 ∧
    ∀ earlier later : List Int, amounts = earlier ++ later →
      (Bug.takeDamageSeq b earlier).carapace = false →
      (Bug.takeDamageSeq b amounts).carapace = false := by
  constructor
  · have := bug_restorations_bound b amounts
    split_ifs at this <;> omega
  · intro earlier later e h
    subst e
    unfold Bug.takeDamageSeq at *
    rw [List.foldl_append]
    exact bug_takeDamageSeq_carapace _ later h

/-- C11 at a fresh Bug hit by 50, 100, 50, 50: one restoration, and the carapace
consumed by the second call is still consumed at the end. -/
theorem carapace_restores_at_most_once_witness :
    Bug.restorations (Bug.new "Bug1") [50, 100, 50, 50] = 1 ∧
    (Bug.takeDamageSeq (Bug.new "Bug1") [50, 100]).carapace = false ∧
    (Bug.takeDamageSeq (Bug.new "Bug1") [50, 100, 50, 50]).carapace = false :=
  ⟨by decide, by decide,
    (carapace_restores_at_most_once (Bug.new "Bug1") [50, 100, 50, 50]).2 [50, 100] [50, 50]
      rfl (by decide)⟩
/-- C12.  For a combatant with no defensive ability remaining (any Marine, or a Bug
whose carapace is already consumed) and every amount `d`, `takeDamage(d)` sets
`health` to `health - d`, sets `alive` to false if the new health is `<= 0` and
leaves `alive` unchanged otherwise, and changes no other field. -/
theorem takeDamage_without_defence (x : Soldier) (d : Int)
    (h : x.kind = Kind.marine ∨ (x.kind = Kind.bug ∧ x.carapace = false)) :
    dispatchTakeDamage x d =
      { x with health := x.health - d,
               alive := if x.health - d ≤ 0 then false else x.alive } := by
  unfold dispatchTakeDamage Soldier.takeDamage Bug.takeDamage
  rcases h with h | ⟨h, hc⟩
  · rw [h]
    simp only []
    split_ifs <;> rfl
  · rw [h]
    simp only [hc]
    split_ifs <;> simp_all

/-- C12 at a Marine at health 50 taking 50, and at a Bug without carapace. -/
theorem takeDamage_without_defence_witness :
    dispatchTakeDamage { Marine.new "Marine1" with health := 50 } 50
      = { Marine.new "Marine1" with health := 0, alive := false } ∧
    dispatchTakeDamage { Bug.new "Bug1" with carapace := false } 30
      = { Bug.new "Bug1" with carapace := false, health := 70 } :=
  ⟨takeDamage_without_defence { Marine.new "Marine1" with health := 50 } 50 (Or.inl rfl),
    takeDamage_without_defence { Bug.new "Bug1" with carapace := false } 30
      (Or.inr ⟨rfl, rfl⟩)⟩

theorem toHit_range (rnd : Nat) : 1 ≤ toHit rnd ∧ toHit rnd ≤ 10 := by
  unfold toHit
  have := Nat.mod_lt rnd (by decide : 0 < 10)
  omega

/-- C13.  For every roll `r` in 1..10 (every `rand()` value) and either attacker
variant (Marine accuracy 7, Bug accuracy 8; damage 50, `base_to_hit` 10): if `r`
does not exceed the accuracy, `attack` leaves both attacker and target unchanged;
if `r` exceeds the accuracy, the attacker's `hits` increases by exactly 1 (nothing
else of the attacker changes), and for `r != 10` the target ends in the state
`takeDamage(50)` produces. -/
theorem attack_by_roll (a t : Soldier) (rnd : Nat)
    (hv : (a.kind = Kind.marine ∧ a.accuracy = 7) ∨ (a.kind = Kind.bug ∧ a.accuracy = 8))
    (hd : a.damage = 50) (hb : a.base_to_hit = 10) :
    (1 ≤ toHit rnd ∧ toHit rnd ≤ 10) ∧
    (toHit rnd ≤ a.accuracy → dispatchAttack a t rnd = (a, t)) ∧
    (a.accuracy < toHit rnd →
      (dispatchAttack a t rnd).1 = { a with hits := a.hits + 1 } ∧
      (toHit rnd ≠ 10 → (dispatchAttack a t rnd).2 = dispatchTakeDamage t 50)) := by
  refine ⟨toHit_range rnd, ?_, ?_⟩
  · intro hle
    unfold dispatchAttack Marine.attack Bug.attack
    rcases hv with ⟨hk, _⟩ | ⟨hk, _⟩ <;> rw [hk] <;> simp only [] <;>
      rw [if_neg (by omega)]
  · intro hlt
    unfold dispatchAttack Marine.attack Bug.attack
    rcases hv with ⟨hk, _⟩ | ⟨hk, _⟩ <;> rw [hk] <;> simp only [] <;>
      rw [if_pos (by omega)] <;> simp only [hb, hd] <;>
      (constructor
       · split_ifs <;> rfl
       · intro hne
         rw [if_neg hne])

/-- C13 at a fresh Marine against a fresh Bug: roll 7 misses, roll 9 hits for 50. -/
theorem attack_by_roll_witness :
    (toHit 6 ≤ (Marine.new "Marine1").accuracy ∧
      dispatchAttack (Marine.new "Marine1") (Bug.new "Bug1") 6
        = (Marine.new "Marine1", Bug.new "Bug1")) ∧
    ((Marine.new "Marine1").accuracy < toHit 8 ∧ toHit 8 ≠ 10 ∧
      (dispatchAttack (Marine.new "Marine1") (Bug.new "Bug1") 8).1
        = { Marine.new "Marine1" with hits := 1 } ∧
      (dispatchAttack (Marine.new "Marine1") (Bug.new "Bug1") 8).2
        = dispatchTakeDamage (Bug.new "Bug1") 50) :=
  ⟨⟨by decide,
      (attack_by_roll (Marine.new "Marine1") (Bug.new "Bug1") 6 (Or.inl ⟨rfl, rfl⟩) rfl
        rfl).2.1 (by decide)⟩,
    ⟨by decide, by decide,
      ((attack_by_roll (Marine.new "Marine1") (Bug.new "Bug1") 8 (Or.inl ⟨rfl, rfl⟩) rfl
        rfl).2.2 (by decide)).1,
      ((attack_by_roll (Marine.new "Marine1") (Bug.new "Bug1") 8 (Or.inl ⟨rfl, rfl⟩) rfl
        rfl).2.2 (by decide)).2 (by decide)⟩⟩

/-- A Marine's roll of 10 is `takeDamage(100)` on the target. -/
theorem marine_critical_hit (a t : Soldier) (rnd : Nat) (ha : a.accuracy = 7)
    (hd : a.damage = 50) (hb : a.base_to_hit = 10) (hr : toHit rnd = 10) :
    (Marine.attack a t rnd).2 = dispatchTakeDamage t 100 := by
  unfold Marine.attack Marine.slay
  simp only [ha, hd, hb, hr]
  rfl

/-- What a Bug's roll of 10 does: 100 is subtracted from the target's health and
nothing else of the target changes. -/
theorem bug_critical_hit (a t : Soldier) (rnd : Nat) (ha : a.accuracy = 8)
    (hd : a.damage = 50) (hb : a.base_to_hit = 10) (hr : toHit rnd = 10) :
    (Bug.attack a t rnd).2 = { t with health := t.health - 100 } := by
  unfold Bug.attack Bug.slay
  simp only [ha, hd, hb, hr]
  rfl

/-- C14 (code departs from the claim).  A fresh Bug rolls 10 against a fresh Marine:
`Bug::slay` subtracts 100 from the health and leaves `alive` true, whereas
`takeDamage(100)` on the same Marine leaves health 0 and `alive` false. -/
theorem bug_slay_skips_liveness_flip :
    toHit 9 = 10 ∧
    (Bug.attack (Bug.new "Bug1") (Marine.new "Marine1") 9).2
      = { Marine.new "Marine1" with health := 0 } ∧
    (Bug.attack (Bug.new "Bug1") (Marine.new "Marine1") 9).2.alive = true ∧
    dispatchTakeDamage (Marine.new "Marine1") 100
      = { Marine.new "Marine1" with health := 0, alive := false } ∧
    (Bug.attack (Bug.new "Bug1") (Marine.new "Marine1") 9).2
      ≠ dispatchTakeDamage (Marine.new "Marine1") 100 := by
  decide
/-! ## Frame of a battle step -/

/-- C15.  A battle step whose attacker or whose defender has `alive = false` changes
nothing: the state after the step is the state before it (rosters, `marineCount`,
`bugCount` and `gameOver`). -/
theorem dead_combatant_step_changes_nothing (s : GameState) (st : Step) (a d : Soldier)
    (ha : stepAttacker s st = some a) (hd : stepDefender s st = some d)
    (h : a.alive = false ∨ d.alive = false) : step s st = s := by
  cases st with
  | marineTask i pick rnd =>
    simp only [stepAttacker, stepDefender, attackersOf, defendersOf, attackerIndex,
      defenderIndex] at ha hd
    show marineStep s i pick rnd = s
    unfold marineStep
    rw [ha, hd]
    simp only [battle_guard s.shared a d true rnd h, set_same _ _ _ ha, set_same _ _ _ hd]
    rfl
  | bugTask j pick rnd =>
    simp only [stepAttacker, stepDefender, attackersOf, defendersOf, attackerIndex,
      defenderIndex] at ha hd
    show bugStep s j pick rnd = s
    unfold bugStep
    rw [ha, hd]
    simp only [battle_guard s.shared a d false rnd h, set_same _ _ _ ha, set_same _ _ _ hd]
    rfl

/-- C15 at the Marine killed by Bug1's roll of 10, attacked again by Bug1. -/
theorem dead_combatant_step_changes_nothing_witness :
    stepAttacker (run (mainState 1 1) [Step.bugTask 0 0 9]) (Step.bugTask 0 0 8)
      = some { Bug.new "Bug1" with hits := 1 } ∧
    stepDefender (run (mainState 1 1) [Step.bugTask 0 0 9]) (Step.bugTask 0 0 8)
      = some { Marine.new "Marine1" with health := 0, alive := false } ∧
    step (run (mainState 1 1) [Step.bugTask 0 0 9]) (Step.bugTask 0 0 8)
      = run (mainState 1 1) [Step.bugTask 0 0 9] :=
  ⟨by decide, by decide,
    dead_combatant_step_changes_nothing (run (mainState 1 1) [Step.bugTask 0 0 9])
      (Step.bugTask 0 0 8) { Bug.new "Bug1" with hits := 1 }
      { Marine.new "Marine1" with health := 0, alive := false } (by decide) (by decide)
      (Or.inr rfl)⟩

theorem battle_kills_append (sh : Shared) (a d : Soldier) (isM : Bool) (rnd : Nat) :
    a.enemies_killed <+: (battle sh a d isM rnd).2.1.enemies_killed ∧
    (battle sh a d isM rnd).2.1.enemies_killed.length ≤ a.enemies_killed.length + 1 := by
  rcases battle_credit sh a d isM rnd with ⟨_, c2⟩ | ⟨_, _, _, _, c5⟩
  · rw [c2]; exact ⟨List.prefix_refl _, by omega⟩
  · rw [c5]; exact ⟨List.prefix_append _ _, by simp⟩

theorem map_name_set (l : List Soldier) (i : Nat) (x y : Soldier) (h : l[i]? = some x)
    (hn : y.name = x.name) :
    (l.set i y).map (fun z => z.name) = l.map (fun z => z.name) := by
  obtain ⟨p, q, e, _, f⟩ := set_split l i x h
  rw [f y, e]
  simp [hn]

/-- C16.  A battle step (attacker `a`, defender `d`) never changes any combatant's
name, leaves the defender's `hits` and `enemies_killed` unchanged, leaves the
attacker's `health` and `alive` unchanged, leaves every other combatant unchanged,
and only appends to the attacker's `enemies_killed`: the old list is a prefix of the
new one, which is longer by at most one. -/
theorem battle_step_frame (s : GameState) (st : Step) (a d : Soldier)
    (ha : stepAttacker s st = some a) (hd : stepDefender s st = some d) :
    (step s st).marineCorps.map (fun z => z.name) = s.marineCorps.map (fun z => z.name) ∧
    (step s st).bugSwarm.map (fun z => z.name) = s.bugSwarm.map (fun z => z.name) ∧
    (∀ k, k ≠ attackerIndex st →
      (attackersOf (step s st) st)[k]? = (attackersOf s st)[k]?) ∧
    (∀ k, k ≠ defenderIndex s st →
      (defendersOf (step s st) st)[k]? = (defendersOf s st)[k]?) ∧
    ∃ a1 d1, (attackersOf (step s st) st)[attackerIndex st]? = some a1 ∧
      (defendersOf (step s st) st)[defenderIndex s st]? = some d1 ∧
      a1.name = a.name ∧ d1.name = d.name ∧
      d1.hits = d.hits ∧ d1.enemies_killed = d.enemies_killed ∧
      a1.health = a.health ∧ a1.alive = a.alive ∧
      a.enemies_killed <+: a1.enemies_killed ∧
      a1.enemies_killed.length ≤ a.enemies_killed.length + 1 := by
  cases st with
  | marineTask i pick rnd =>
    simp only [stepAttacker, stepDefender, attackersOf, defendersOf, attackerIndex,
      defenderIndex] at ha hd ⊢
    obtain ⟨f1, f2, f3, f4, f5, f6, f7, f8⟩ := battle_fields s.shared a d true rnd
    obtain ⟨g1, g2⟩ := battle_kills_append s.shared a d true rnd
    have e : step s (Step.marineTask i pick rnd) =
        { marineCorps := s.marineCorps.set i (battle s.shared a d true rnd).2.1,
          bugSwarm := s.bugSwarm.set (pick % s.bugSwarm.length)
            (battle s.shared a d true rnd).2.2,
          marineCount := (battle s.shared a d true rnd).1.marineCount,
          bugCount := (battle s.shared a d true rnd).1.bugCount,
          gameOver := (battle s.shared a d true rnd).1.gameOver } := by
      show marineStep s i pick rnd = _
      unfold marineStep
      rw [ha, hd]
    rw [e]
    refine ⟨map_name_set _ _ _ _ ha f1, map_name_set _ _ _ _ hd f4, ?_, ?_, ?_⟩
    · intro k hk
      exact List.getElem?_set_ne (Ne.symm hk)
    · intro k hk
      exact List.getElem?_set_ne (Ne.symm hk)
    · exact ⟨_, _, getElem?_set_some _ _ _ _ ha, getElem?_set_some _ _ _ _ hd, f1, f4, f6,
        f5, f3, f2, g1, g2⟩
  | bugTask j pick rnd =>
    simp only [stepAttacker, stepDefender, attackersOf, defendersOf, attackerIndex,
      defenderIndex] at ha hd ⊢
    obtain ⟨f1, f2, f3, f4, f5, f6, f7, f8⟩ := battle_fields s.shared a d false rnd
    obtain ⟨g1, g2⟩ := battle_kills_append s.shared a d false rnd
    have e : step s (Step.bugTask j pick rnd) =
        { marineCorps := s.marineCorps.set (pick % s.marineCorps.length)
            (battle s.shared a d false rnd).2.2,
          bugSwarm := s.bugSwarm.set j (battle s.shared a d false rnd).2.1,
          marineCount := (battle s.shared a d false rnd).1.marineCount,
          bugCount := (battle s.shared a d false rnd).1.bugCount,
          gameOver := (battle s.shared a d false rnd).1.gameOver } := by
      show bugStep s j pick rnd = _
      unfold bugStep
      rw [ha, hd]
    rw [e]
    refine ⟨map_name_set _ _ _ _ hd f4, map_name_set _ _ _ _ ha f1, ?_, ?_, ?_⟩
    · intro k hk
      exact List.getElem?_set_ne (Ne.symm hk)
    · intro k hk
      exact List.getElem?_set_ne (Ne.symm hk)
    · exact ⟨_, _, getElem?_set_some _ _ _ _ ha, getElem?_set_some _ _ _ _ hd, f1, f4, f6,
        f5, f3, f2, g1, g2⟩
/-- C16 at the first hit of Bug1 on Marine1 in the battle of one Marine and one Bug. -/
theorem battle_step_frame_witness :
    stepAttacker (mainState 1 1) (Step.bugTask 0 0 8) = some (Bug.new "Bug1") ∧
    stepDefender (mainState 1 1) (Step.bugTask 0 0 8) = some (Marine.new "Marine1") ∧
    (step (mainState 1 1) (Step.bugTask 0 0 8)).marineCorps.map (fun z => z.name)
      = (mainState 1 1).marineCorps.map (fun z => z.name) ∧
    (step (mainState 1 1) (Step.bugTask 0 0 8)).bugSwarm.map (fun z => z.name)
      = (mainState 1 1).bugSwarm.map (fun z => z.name) :=
  ⟨by decide, by decide,
    (battle_step_frame (mainState 1 1) (Step.bugTask 0 0 8) (Bug.new "Bug1")
      (Marine.new "Marine1") (by decide) (by decide)).1,
    (battle_step_frame (mainState 1 1) (Step.bugTask 0 0 8) (Bug.new "Bug1")
      (Marine.new "Marine1") (by decide) (by decide)).2.1⟩

/-! ## Setup in `main` -/

/-- What the prompt loop guarantees: it exits as soon as the variable is non-zero,
so the value it exits with is non-zero (of either sign). -/
theorem promptLoop_exit_nonzero (num : Int) (entries : List Int) (n : Int)
    (h : promptLoop num entries = some n) : n ≠ 0 := by
  induction entries generalizing num with
  | nil =>
    unfold promptLoop at h
    split_ifs at h with h0
    exact fun hn => h0 (by rw [← Option.some.inj h] at hn; exact hn)
  | cons e rest ih =>
    unfold promptLoop at h
    split_ifs at h with h0
    · exact ih e h
    · exact fun hn => h0 (by rw [← Option.some.inj h] at hn; exact hn)

/-- C17 (code departs from the claim).  At the Marine prompt, the entry `-5` ends the
loop (its condition is `marine_num == 0`) although the body has just reported that
the count must be greater than 0: the loop exits with `-5`, which is not `>= 1`,
and the roster built from it is empty.  The entries `0, 0, -3, 7` exit with `-3`. -/
theorem negative_troop_count_accepted :
    readTroopCount [-5] = some (-5) ∧ ¬ ((1 : Int) ≤ -5) ∧
    (mainState (builtCount (-5)) 1).marineCorps = [] ∧
    (mainState (builtCount (-5)) 1).marineCount = 0 ∧
    readTroopCount [0, 0, -3, 7] = some (-3) := by
  decide

theorem wrapInt_of_fits (x : Int) (h1 : -2147483648 ≤ x) (h2 : x ≤ 2147483647) :
    wrapInt x = x := by
  unfold wrapInt
  rw [Int.emod_eq_of_lt (by omega) (by omega)]
  omega

/-- C18 fails as stated.  With one reported core the test
`marine_num + bug_num > numCores - 1` selects `numCores - 1 = 0`: the worker count is
0, where `max(1, min(1 + 1, 1 - 1))` is 1.  With no core reported the `int` value
`-1` is converted to the `size_t` value `2^64 - 1`.  And with 2147483647 Marines,
1 Bug and 64 cores the `int` sum wraps to `-2^31`, the test fails, and the sum is
converted to the `size_t` value `2^64 - 2^31`, where `max(1, min(.., 63))` is 63. -/
theorem pool_size_not_floored :
    poolSize 1 1 1 = 0 ∧ max (1 : Int) (min (1 + 1) (1 - 1)) = 1 ∧
    poolSize 1 1 0 = 2 ^ 64 - 1 ∧ max (1 : Int) (min (1 + 1) (0 - 1)) = 1 ∧
    poolSize 2147483647 1 64 = 18446744071562067968 ∧
    max (1 : Int) (min (2147483647 + 1) (64 - 1)) = 63 := by
  decide

/-- C18, amended.  For all troop counts `marine_num >= 1` and `bug_num >= 1` whose
sum fits an `int` (`marine_num + bug_num <= 2^31 - 1`) and every reported core count
`numCores >= 2` (an `int` value), the worker count passed to the `ThreadPool`
constructor equals `min(marine_num + bug_num, numCores - 1)`, which is
`max(1, min(marine_num + bug_num, numCores - 1))`; in particular it is `>= 1`. -/
theorem pool_size_is_min (marine_num bug_num numCores : Int) (hm : 1 ≤ marine_num)
    (hb : 1 ≤ bug_num) (hsum : marine_num + bug_num ≤ 2147483647) (hc : 2 ≤ numCores)
    (hint : numCores ≤ 2147483647) :
    (poolSize marine_num bug_num numCores : Int) = min (marine_num + bug_num) (numCores - 1) ∧
    (poolSize marine_num bug_num numCores : Int)
      = max 1 (min (marine_num + bug_num) (numCores - 1)) ∧
    1 ≤ poolSize marine_num bug_num numCores := by
  have key : (poolSize marine_num bug_num numCores : Int)
      = min (marine_num + bug_num) (numCores - 1) := by
    unfold poolSize poolSizeArg toSizeT
    rw [wrapInt_of_fits (marine_num + bug_num) (by omega) hsum,
      wrapInt_of_fits (numCores - 1) (by omega) (by omega)]
    split_ifs with h
    · rw [min_eq_right (by omega)]
      rw [Int.emod_eq_of_lt (by omega) (by omega)]
      omega
    · rw [min_eq_left (by omega)]
      rw [Int.emod_eq_of_lt (by omega) (by omega)]
      omega
  refine ⟨key, ?_, ?_⟩
  · rw [key]
    rw [max_eq_right]
    exact le_min (by omega) (by omega)
  · have h1 : (1 : Int) ≤ min (marine_num + bug_num) (numCores - 1) :=
      le_min (by omega) (by omega)
    omega

/-- C18, amended, at 3 Marines, 4 Bugs and 4 cores: 3 workers. -/
theorem pool_size_is_min_witness :
    (1 : Int) ≤ 3 ∧ (1 : Int) ≤ 4 ∧ (3 : Int) + 4 ≤ 2147483647 ∧ (2 : Int) ≤ 4 ∧
    (4 : Int) ≤ 2147483647 ∧
    (poolSize 3 4 4 : Int) = min (3 + 4) (4 - 1) ∧
    (poolSize 3 4 4 : Int) = max 1 (min (3 + 4) (4 - 1)) ∧ 1 ≤ poolSize 3 4 4 :=
  ⟨by decide, by decide, by decide, by decide, by decide,
    pool_size_is_min 3 4 4 (by decide) (by decide) (by decide) (by decide) (by decide)⟩

/-! ## `postProcessing` -/

theorem maxKillCount_cons (x : Soldier) (l : List Soldier) :
    maxKillCount (x :: l) = max x.enemies_killed.length (maxKillCount l) := rfl

theorem totalKills_cons (x : Soldier) (l : List Soldier) :
    totalKills (x :: l) = x.enemies_killed.length + totalKills l := by
  simp [totalKills]

theorem totalHits_cons (x : Soldier) (l : List Soldier) :
    totalHits (x :: l) = x.hits + totalHits l := by
  simp [totalHits]

theorem tallyKills_cons (x : Soldier) (l : List Soldier) (r : TallyRefs) :
    tallyKills (x :: l) r = tallyKills l (tallyOne r x) := rfl

theorem le_maxKillCount (l : List Soldier) (x : Soldier) (hx : x ∈ l) :
    x.enemies_killed.length ≤ maxKillCount l := by
  induction l with
  | nil => simp at hx
  | cons y t ih =>
    rw [maxKillCount_cons]
    rcases List.mem_cons.mp hx with h | h
    · subst h; exact le_max_left _ _
    · exact le_trans (ih h) (le_max_right _ _)

/-- What one `tallyKills` call does to the four referenced variables, for any
non-negative incoming `highest_kill_count`. -/
theorem tallyKills_spec (l : List Soldier) (r : TallyRefs) (h : Nat)
    (hr : r.highest_kill_count = (h : Int)) :
    (tallyKills l r).total_hits = r.total_hits + totalHits l ∧
    (tallyKills l r).total_kills = r.total_kills + (totalKills l : Int) ∧
    (tallyKills l r).highest_kill_count = ((max h (maxKillCount l) : Nat) : Int) ∧
    (tallyKills l r).top_killers =
      (if h = max h (maxKillCount l) then r.top_killers else []) ++
        l.filter (fun x => x.enemies_killed.length = max h (maxKillCount l)) := by
  induction l generalizing r h with
  | nil =>
    simp [tallyKills, totalHits, totalKills, maxKillCount, hr]
  | cons x t ih =>
    rw [tallyKills_cons, maxKillCount_cons, totalKills_cons, totalHits_cons]
    by_cases h1 : (x.enemies_killed.length : Int) > r.highest_kill_count
    · have e : tallyOne r x = TallyRefs.mk (r.total_hits + x.hits) (r.total_kills + (x.enemies_killed.length : Int))
          ((x.enemies_killed.length : Int)) ([x]) := by
        unfold tallyOne; simp only []; rw [if_pos h1]
      obtain ⟨i1, i2, i3, i4⟩ := ih (tallyOne r x) x.enemies_killed.length (by rw [e])
      have hlt : h < x.enemies_killed.length := by rw [hr] at h1; omega
      have hm : max h (max x.enemies_killed.length (maxKillCount t))
          = max x.enemies_killed.length (maxKillCount t) := by omega
      rw [hm]
      refine ⟨by rw [i1, e]; ring, by rw [i2, e]; push_cast; ring, i3, ?_⟩
      rw [i4, e]
      have hne : ¬ (h = max x.enemies_killed.length (maxKillCount t)) := by omega
      rw [if_neg hne, List.nil_append, List.filter_cons]
      by_cases hx : x.enemies_killed.length = max x.enemies_killed.length (maxKillCount t)
      · rw [if_pos hx]
        simp only [decide_eq_true hx, if_true]
        rfl
      · rw [if_neg hx]
        simp [hx]
    · by_cases h2 : (x.enemies_killed.length : Int) = r.highest_kill_count
      · have e : tallyOne r x = TallyRefs.mk (r.total_hits + x.hits) (r.total_kills + (x.enemies_killed.length : Int))
          (r.highest_kill_count) (r.top_killers ++ [x]) := by
          unfold tallyOne; simp only []; rw [if_neg h1, if_pos h2]
        obtain ⟨i1, i2, i3, i4⟩ := ih (tallyOne r x) h (by rw [e]; exact hr)
        have heq : x.enemies_killed.length = h := by rw [hr] at h2; omega
        have hm : max h (max x.enemies_killed.length (maxKillCount t))
            = max h (maxKillCount t) := by omega
        rw [hm]
        refine ⟨by rw [i1, e]; ring, by rw [i2, e]; push_cast; ring, i3, ?_⟩
        rw [i4, e, List.filter_cons]
        by_cases hx : h = max h (maxKillCount t)
        · rw [if_pos hx, if_pos hx]
          have : x.enemies_killed.length = max h (maxKillCount t) := by omega
          simp [this]
        · rw [if_neg hx, if_neg hx]
          have : ¬ (x.enemies_killed.length = max h (maxKillCount t)) := by omega
          simp [this]
      · have e : tallyOne r x = TallyRefs.mk (r.total_hits + x.hits) (r.total_kills + (x.enemies_killed.length : Int))
          (r.highest_kill_count) (r.top_killers) := by
          unfold tallyOne; simp only []; rw [if_neg h1, if_neg h2]
        obtain ⟨i1, i2, i3, i4⟩ := ih (tallyOne r x) h (by rw [e]; exact hr)
        have hlt : x.enemies_killed.length < h := by rw [hr] at h1 h2; omega
        have hm : max h (max x.enemies_killed.length (maxKillCount t))
            = max h (maxKillCount t) := by omega
        rw [hm]
        refine ⟨by rw [i1, e]; ring, by rw [i2, e]; push_cast; ring, i3, ?_⟩
        rw [i4, e, List.filter_cons]
        have : ¬ (x.enemies_killed.length = max h (maxKillCount t)) := by omega
        simp [this]
theorem maxKillCount_append (l1 l2 : List Soldier) :
    maxKillCount (l1 ++ l2) = max (maxKillCount l1) (maxKillCount l2) := by
  induction l1 with
  | nil => simp [maxKillCount]
  | cons x t ih =>
    rw [List.cons_append, maxKillCount_cons, maxKillCount_cons, ih, max_assoc]

theorem filter_above_max (l : List Soldier) (n : Nat) (h : maxKillCount l < n) :
    l.filter (fun x => x.enemies_killed.length = n) = [] := by
  rw [List.filter_eq_nil_iff]
  intro x hx
  have := le_maxKillCount l x hx
  simp only [decide_eq_true_eq]
  omega

/-- C19.  After `tallyKills` has been run on the Marine roster and then on the Bug
roster, `top_killers` is exactly the list, in roster order with Marines first, of
the combatants of both rosters whose `enemies_killed` length equals the maximum
`enemies_killed` length over all combatants of both rosters (ties all kept), and
`highest_kill_count` is that maximum. -/
theorem top_killers_are_the_maxima (marineCorps bugSwarm : List Soldier) :
    (postProcessing marineCorps bugSwarm).top_killers
      = topKillersSpec (marineCorps ++ bugSwarm) ∧
    (postProcessing marineCorps bugSwarm).highest_kill_count
      = (maxKillCount (marineCorps ++ bugSwarm) : Int) := by
  obtain ⟨_, _, m3, m4⟩ := tallyKills_spec marineCorps
    { total_hits := 0, total_kills := 0, highest_kill_count := 0, top_killers := [] } 0 rfl
  have hz : max 0 (maxKillCount marineCorps) = maxKillCount marineCorps := by omega
  rw [hz] at m3 m4
  obtain ⟨_, _, b3, b4⟩ := tallyKills_spec bugSwarm
    { total_hits := 0, total_kills := 0,
      highest_kill_count := (tallyKills marineCorps
        { total_hits := 0, total_kills := 0, highest_kill_count := 0,
          top_killers := [] }).highest_kill_count,
      top_killers := (tallyKills marineCorps
        { total_hits := 0, total_kills := 0, highest_kill_count := 0,
          top_killers := [] }).top_killers }
    (maxKillCount marineCorps) m3
  unfold postProcessing topKillersSpec
  simp only []
  rw [b3, b4, maxKillCount_append, List.filter_append]
  refine ⟨?_, rfl⟩
  congr 1
  rw [m4]
  by_cases hx : maxKillCount marineCorps = max (maxKillCount marineCorps) (maxKillCount bugSwarm)
  · rw [if_pos hx, ← hx]
    simp
  · rw [if_neg hx]
    have hlt : maxKillCount marineCorps
        < max (maxKillCount marineCorps) (maxKillCount bugSwarm) := by omega
    exact (filter_above_max marineCorps _ hlt).symm

theorem totalHits_split (l : List Soldier) :
    totalHits l = totalHits (l.filter (fun x => x.alive))
      + totalHits (l.filter (fun x => !x.alive)) := by
  induction l with
  | nil => simp [totalHits]
  | cons x t ih =>
    rw [totalHits_cons, ih, List.filter_cons, List.filter_cons]
    cases hx : x.alive <;> simp [totalHits_cons] <;> ring

theorem totalKills_split (l : List Soldier) :
    totalKills l = totalKills (l.filter (fun x => x.alive))
      + totalKills (l.filter (fun x => !x.alive)) := by
  induction l with
  | nil => simp [totalKills]
  | cons x t ih =>
    rw [totalKills_cons, ih, List.filter_cons, List.filter_cons]
    cases hx : x.alive <;> simp [totalKills_cons] <;> omega

/-- C20.  For every roster, `tallyKills` adds to `total_hits` exactly the sum of
`hits` over all roster members and to `total_kills` exactly the sum of the lengths
of their `enemies_killed` lists; the sums run over living and dead members alike. -/
theorem tallyKills_totals (force : List Soldier) (r : TallyRefs) :
    (tallyKills force r).total_hits = r.total_hits + totalHits force ∧
    (tallyKills force r).total_kills = r.total_kills + (totalKills force : Int) ∧
    totalHits force = totalHits (force.filter (fun x => x.alive))
      + totalHits (force.filter (fun x => !x.alive)) ∧
    totalKills force = totalKills (force.filter (fun x => x.alive))
      + totalKills (force.filter (fun x => !x.alive)) := by
  refine ⟨?_, ?_, totalHits_split force, totalKills_split force⟩
  · induction force generalizing r with
    | nil => simp [tallyKills, totalHits]
    | cons x t ih =>
      rw [tallyKills_cons, ih, totalHits_cons]
      have : (tallyOne r x).total_hits = r.total_hits + x.hits := by
        unfold tallyOne; simp only []; split_ifs <;> rfl
      rw [this]; ring
  · induction force generalizing r with
    | nil => simp [tallyKills, totalKills]
    | cons x t ih =>
      rw [tallyKills_cons, ih, totalKills_cons]
      have : (tallyOne r x).total_kills = r.total_kills + (x.enemies_killed.length : Int) := by
        unfold tallyOne; simp only []; split_ifs <;> rfl
      rw [this]; push_cast; ring

/-! ## The worker of the thread pool -/

theorem worker_returned (fuel : Nat) (s : PoolState)
    (h : (ThreadPool.worker fuel s).1 = WorkerEnd.returned) :
    (ThreadPool.worker fuel s).2.stopFlag = true ∧ (ThreadPool.worker fuel s).2.taskQueue = [] := by
  induction fuel generalizing s with
  | zero => simp [ThreadPool.worker] at h
  | succ n ih =>
    unfold ThreadPool.worker at h ⊢
    by_cases h1 : (!(s.stopFlag || !ThreadSafeQueue.empty s.taskQueue)) = true
    · rw [if_pos h1] at h
      simp at h
    · rw [if_neg h1] at h ⊢
      by_cases h2 : (s.stopFlag && ThreadSafeQueue.empty s.taskQueue) = true
      · rw [if_pos h2]
        simp only [Bool.and_eq_true] at h2
        refine ⟨h2.1, ?_⟩
        have := h2.2
        unfold ThreadSafeQueue.empty at this
        exact List.isEmpty_iff.mp this
      · rw [if_neg h2] at h ⊢
        cases hq : s.taskQueue with
        | nil =>
          simp only [hq, ThreadSafeQueue.pop] at h
          simp at h
        | cons t rest =>
          simp only [hq, ThreadSafeQueue.pop] at h ⊢
          exact ih _ h

theorem worker_drains (queue ran : List Nat) (fuel : Nat) (h : queue.length < fuel) :
    ThreadPool.worker fuel { stopFlag := true, taskQueue := queue, ran := ran }
      = (WorkerEnd.returned, { stopFlag := true, taskQueue := [], ran := ran ++ queue }) := by
  induction queue generalizing ran fuel with
  | nil =>
    cases fuel with
    | zero => simp at h
    | succ n => simp [ThreadPool.worker, ThreadSafeQueue.empty]
  | cons t rest ih =>
    cases fuel with
    | zero => simp at h
    | succ n =>
      have hn : rest.length < n := by simpa using h
      unfold ThreadPool.worker
      simp only [ThreadSafeQueue.empty, ThreadSafeQueue.pop, List.isEmpty_cons, Bool.not_false,
        Bool.or_true, Bool.not_true, Bool.false_eq_true, if_false, Bool.and_false]
      rw [ih (ran ++ [t]) n hn]
      simp

/-- C21.  With one worker running alone, `ThreadPool::worker` returns only in a state
where `stopFlag` is set and the task queue is empty; and if the stop signal is raised
while the tasks `queue` are queued, the worker, given more loop iterations than there
are tasks, returns after running exactly these tasks in FIFO order. -/
theorem worker_returns_after_draining (fuel : Nat) (s : PoolState) :
    ((ThreadPool.worker fuel s).1 = WorkerEnd.returned →
      (ThreadPool.worker fuel s).2.stopFlag = true ∧
      (ThreadPool.worker fuel s).2.taskQueue = []) ∧
    (s.taskQueue.length < fuel →
      ThreadPool.worker fuel (ThreadPool.raiseStop s)
        = (WorkerEnd.returned,
            { stopFlag := true, taskQueue := [], ran := s.ran ++ s.taskQueue })) := by
  refine ⟨worker_returned fuel s, fun h => ?_⟩
  exact worker_drains s.taskQueue s.ran fuel h

/-- C21 at three tasks submitted in the order 1, 2, 3 before the stop signal. -/
theorem worker_returns_after_draining_witness :
    (ThreadPool.worker 4 (ThreadPool.raiseStop (ThreadPool.submit (ThreadPool.submit
      (ThreadPool.submit { stopFlag := false, taskQueue := [], ran := [] } 1) 2) 3))).1
      = WorkerEnd.returned ∧
    ((ThreadPool.worker 4 (ThreadPool.raiseStop (ThreadPool.submit (ThreadPool.submit
      (ThreadPool.submit { stopFlag := false, taskQueue := [], ran := [] } 1) 2) 3))).2.stopFlag
      = true ∧
    (ThreadPool.worker 4 (ThreadPool.raiseStop (ThreadPool.submit (ThreadPool.submit
      (ThreadPool.submit { stopFlag := false, taskQueue := [], ran := [] } 1) 2) 3))).2.taskQueue
      = []) ∧
    ThreadPool.worker 4 (ThreadPool.raiseStop (ThreadPool.submit (ThreadPool.submit
      (ThreadPool.submit { stopFlag := false, taskQueue := [], ran := [] } 1) 2) 3))
      = (WorkerEnd.returned, { stopFlag := true, taskQueue := [], ran := [1, 2, 3] }) :=
  ⟨by decide,
    (worker_returns_after_draining 4 (ThreadPool.raiseStop (ThreadPool.submit
      (ThreadPool.submit (ThreadPool.submit
        { stopFlag := false, taskQueue := [], ran := [] } 1) 2) 3))).1 (by decide),
    (worker_returns_after_draining 4 (ThreadPool.submit (ThreadPool.submit
      (ThreadPool.submit { stopFlag := false, taskQueue := [], ran := [] } 1) 2) 3)).2
      (by decide)⟩
/-! ## Health of the living, hits and kills -/

theorem attack_hit_cases (a d : Soldier) (rnd : Nat) :
    dispatchAttack a d rnd = (a, d) ∨ (dispatchAttack a d rnd).1.hits = a.hits + 1 := by
  unfold dispatchAttack Marine.attack Bug.attack
  cases a.kind <;> simp only [] <;> split_ifs <;> simp

theorem battle_live (sh : Shared) (a d : Soldier) (isM : Bool) (rnd : Nat)
    (hd : d.alive = true → 0 < d.health)
    (h : (battle sh a d isM rnd).2.2.alive = true) : 0 < (battle sh a d isM rnd).2.2.health := by
  by_cases hg : a.alive = false ∨ d.alive = false
  · rw [battle_guard sh a d isM rnd hg] at h ⊢
    exact hd h
  · have ha : a.alive = true := by
      cases h : a.alive <;> simp_all
    have hda : d.alive = true := by
      cases h : d.alive <;> simp_all
    have hb : battle sh a d isM rnd =
        battleClaim sh (dispatchAttack a d rnd).1 (dispatchAttack a d rnd).2 isM := by
      unfold battle; simp [ha, hda]
    rw [hb] at h ⊢
    obtain ⟨c1, c2, c3, c4, c5, c6, c7, c8, c9, c10⟩ :=
      battleClaim_fields sh (dispatchAttack a d rnd).1 (dispatchAttack a d rnd).2 isM
    rw [c8]
    exact (c9 h).2

theorem battle_hits (sh : Shared) (a d : Soldier) (isM : Bool) (rnd : Nat) :
    ((battle sh a d isM rnd).2.1.hits = a.hits ∧
      (battle sh a d isM rnd).2.1.enemies_killed = a.enemies_killed) ∨
    (battle sh a d isM rnd).2.1.hits = a.hits + 1 := by
  by_cases hg : a.alive = false ∨ d.alive = false
  · rw [battle_guard sh a d isM rnd hg]; exact Or.inl ⟨rfl, rfl⟩
  · have ha : a.alive = true := by
      cases h : a.alive <;> simp_all
    have hda : d.alive = true := by
      cases h : d.alive <;> simp_all
    have hb : battle sh a d isM rnd =
        battleClaim sh (dispatchAttack a d rnd).1 (dispatchAttack a d rnd).2 isM := by
      unfold battle; simp [ha, hda]
    rw [hb]
    obtain ⟨c1, c2, c3, c4, c5, c6, c7, c8, c9, c10⟩ :=
      battleClaim_fields sh (dispatchAttack a d rnd).1 (dispatchAttack a d rnd).2 isM
    rcases attack_hit_cases a d rnd with hmiss | hhit
    · left
      rw [c4, hmiss]
      refine ⟨rfl, ?_⟩
      rcases battleClaim_credit sh (dispatchAttack a d rnd).1 (dispatchAttack a d rnd).2 isM
        with ⟨_, k2⟩ | ⟨k1, _, _, _⟩
      · rw [hmiss] at k2; exact k2
      · rw [hmiss] at k1
        rw [hda] at k1
        exact absurd k1 (by simp)
    · right
      rw [c4, hhit]

theorem inv_lists {P : Soldier → Prop} (p q : List Soldier) (a a1 : Soldier)
    (h : ∀ x ∈ p ++ a :: q, P x) (ha : P a1) : ∀ x ∈ p ++ a1 :: q, P x := by
  intro x hx
  simp only [List.mem_append, List.mem_cons] at hx
  rcases hx with hx | hx | hx
  · exact h x (by simp [hx])
  · subst hx; exact ha
  · exact h x (by simp [hx])

theorem liveInv_step (s : GameState) (st : Step) (h : LiveInv s) : LiveInv (step s st) := by
  refine step_induction LiveInv ?_ ?_ s st h
  · intro s p1 m q1 p2 b q2 rnd hs e1 e2
    obtain ⟨h1, h2⟩ := hs
    rw [e1] at h1
    rw [e2] at h2
    obtain ⟨f1, f2, f3, f4, f5, f6, f7, f8⟩ := battle_fields s.shared m b true rnd
    refine ⟨inv_lists p1 q1 m _ h1 ?_, inv_lists p2 q2 b _ h2 ?_⟩
    · rw [f2, f3]; exact h1 m (by simp)
    · exact battle_live s.shared m b true rnd (h2 b (by simp))
  · intro s p1 m q1 p2 b q2 rnd hs e1 e2
    obtain ⟨h1, h2⟩ := hs
    rw [e1] at h1
    rw [e2] at h2
    obtain ⟨f1, f2, f3, f4, f5, f6, f7, f8⟩ := battle_fields s.shared b m false rnd
    refine ⟨inv_lists p1 q1 m _ h1 ?_, inv_lists p2 q2 b _ h2 ?_⟩
    · exact battle_live s.shared b m false rnd (h1 m (by simp))
    · rw [f2, f3]; exact h2 b (by simp)

theorem liveInv_fresh (mn bn : List String) : LiveInv (freshState mn bn) := by
  unfold LiveInv freshState gameLoopInit
  constructor
  · intro x hx _
    obtain ⟨n, _, e⟩ := List.mem_map.mp hx
    subst e
    simp [Marine.new]
  · intro x hx _
    obtain ⟨n, _, e⟩ := List.mem_map.mp hx
    subst e
    simp [Bug.new]

/-- C24.  After every battle step, starting from freshly constructed rosters, every
combatant whose `alive` flag is true has `health > 0`; with C9, between steps `alive`
holds exactly when `health > 0`. -/
theorem alive_iff_health_positive (mn bn : List String) (steps : List Step) (x : Soldier)
    (hx : x ∈ (run (freshState mn bn) steps).marineCorps ∨
      x ∈ (run (freshState mn bn) steps).bugSwarm) :
    (x.alive = true → 0 < x.health) ∧ (x.alive = true ↔ 0 < x.health) := by
  have hl : LiveInv (run (freshState mn bn) steps) :=
    run_induction LiveInv liveInv_step _ steps (liveInv_fresh mn bn)
  have hd : DeadInv (run (freshState mn bn) steps) :=
    run_induction DeadInv deadInv_step _ steps (deadInv_fresh mn bn)
  have h1 : x.alive = true → 0 < x.health := by
    rcases hx with hx | hx
    · exact hl.1 x hx
    · exact hl.2 x hx
  have h2 : x.alive = false → x.health ≤ 0 := by
    rcases hx with hx | hx
    · exact hd.1 x hx
    · exact hd.2 x hx
  refine ⟨h1, h1, fun hpos => ?_⟩
  cases ha : x.alive
  · have := h2 ha; omega
  · rfl

/-- C24 at the Bug left at health 50 by its carapace after a critical hit. -/
theorem alive_iff_health_positive_witness :
    (({ Bug.new "Bug1" with health := 50, carapace := false } : Soldier) ∈
        (run (freshState ["Marine1"] ["Bug1"]) [Step.marineTask 0 0 9]).marineCorps ∨
      ({ Bug.new "Bug1" with health := 50, carapace := false } : Soldier) ∈
        (run (freshState ["Marine1"] ["Bug1"]) [Step.marineTask 0 0 9]).bugSwarm) ∧
    (({ Bug.new "Bug1" with health := 50, carapace := false } : Soldier).alive = true →
      0 < ({ Bug.new "Bug1" with health := 50, carapace := false } : Soldier).health) :=
  ⟨by decide,
    (alive_iff_health_positive ["Marine1"] ["Bug1"] [Step.marineTask 0 0 9]
      { Bug.new "Bug1" with health := 50, carapace := false } (by decide)).1⟩

theorem hitInv_step (s : GameState) (st : Step) (h : HitInv s) : HitInv (step s st) := by
  have key : ∀ (sh : Shared) (a d : Soldier) (isM : Bool) (rnd : Nat),
      (a.enemies_killed.length : Int) ≤ a.hits → (d.enemies_killed.length : Int) ≤ d.hits →
      ((battle sh a d isM rnd).2.1.enemies_killed.length : Int) ≤ (battle sh a d isM rnd).2.1.hits ∧
      ((battle sh a d isM rnd).2.2.enemies_killed.length : Int)
        ≤ (battle sh a d isM rnd).2.2.hits := by
    intro sh a d isM rnd ha hd
    obtain ⟨f1, f2, f3, f4, f5, f6, f7, f8⟩ := battle_fields sh a d isM rnd
    obtain ⟨_, g2⟩ := battle_kills_append sh a d isM rnd
    refine ⟨?_, by rw [f5, f6]; exact hd⟩
    rcases battle_hits sh a d isM rnd with ⟨k1, k2⟩ | k1
    · rw [k1, k2]; exact ha
    · rw [k1]; omega
  refine step_induction HitInv ?_ ?_ s st h
  · intro s p1 m q1 p2 b q2 rnd hs e1 e2
    obtain ⟨h1, h2⟩ := hs
    rw [e1] at h1
    rw [e2] at h2
    obtain ⟨k1, k2⟩ := key s.shared m b true rnd (h1 m (by simp)) (h2 b (by simp))
    exact ⟨inv_lists p1 q1 m _ h1 k1, inv_lists p2 q2 b _ h2 k2⟩
  · intro s p1 m q1 p2 b q2 rnd hs e1 e2
    obtain ⟨h1, h2⟩ := hs
    rw [e1] at h1
    rw [e2] at h2
    obtain ⟨k1, k2⟩ := key s.shared b m false rnd (h2 b (by simp)) (h1 m (by simp))
    exact ⟨inv_lists p1 q1 m _ h1 k2, inv_lists p2 q2 b _ h2 k1⟩

theorem hitInv_fresh (mn bn : List String) : HitInv (freshState mn bn) := by
  unfold HitInv freshState gameLoopInit
  constructor
  · intro x hx
    obtain ⟨n, _, e⟩ := List.mem_map.mp hx
    subst e
    simp [Marine.new]
  · intro x hx
    obtain ⟨n, _, e⟩ := List.mem_map.mp hx
    subst e
    simp [Bug.new]
/-! ## Counters against kill lists -/

theorem totalKills_split_at (p q : List Soldier) (a : Soldier) :
    totalKills (p ++ a :: q) = totalKills p + totalKills q + a.enemies_killed.length := by
  unfold totalKills
  simp only [List.map_append, List.map_cons, List.sum_append, List.sum_cons]
  omega

/-- One battle between `a` and `d`, seen from the counter `cd` of the defender's side
and the kill totals: either nothing is credited, or `cd` is positive and the
attackers' total grows by one. -/
theorem credit_battle (p1 q1 p2 q2 : List Soldier) (a d : Soldier) (sh : Shared)
    (isM : Bool) (rnd : Nat) (ca cd : Nat) (hca : aliveCount (p1 ++ a :: q1) ≤ ca)
    (hcd : aliveCount (p2 ++ d :: q2) ≤ cd) :
    aliveCount (p1 ++ (battle sh a d isM rnd).2.1 :: q1) ≤ ca ∧
    totalKills (p2 ++ (battle sh a d isM rnd).2.2 :: q2) = totalKills (p2 ++ d :: q2) ∧
    ((battle sh a d isM rnd).1 = sh ∧
        aliveCount (p2 ++ (battle sh a d isM rnd).2.2 :: q2) ≤ cd ∧
        totalKills (p1 ++ (battle sh a d isM rnd).2.1 :: q1) = totalKills (p1 ++ a :: q1) ∨
      (battle sh a d isM rnd).1 = creditShared sh isM ∧ 1 ≤ cd ∧
        aliveCount (p2 ++ (battle sh a d isM rnd).2.2 :: q2) ≤ cd - 1 ∧
        totalKills (p1 ++ (battle sh a d isM rnd).2.1 :: q1)
          = totalKills (p1 ++ a :: q1) + 1) := by
  obtain ⟨f1, f2, f3, f4, f5, f6, f7, f8⟩ := battle_fields sh a d isM rnd
  rw [aliveCount_split] at hca hcd
  simp only [aliveCount_split, totalKills_split_at]
  refine ⟨by rw [f2]; exact hca, by rw [f5], ?_⟩
  rcases battle_credit sh a d isM rnd with ⟨c1, c2⟩ | ⟨_, c2, c3, c4, c5⟩
  · left
    refine ⟨c1, ?_, by rw [c2]⟩
    by_cases hx : (battle sh a d isM rnd).2.2.alive = true
    · rw [if_pos hx]; rw [if_pos (f7 hx)] at hcd; exact hcd
    · rw [if_neg hx]; split_ifs at hcd <;> omega
  · right
    rw [c3, c5]
    rw [if_pos c2] at hcd
    simp only [Bool.false_eq_true, if_false, List.length_append, List.length_singleton]
    exact ⟨c4, by omega, by omega, by omega⟩

/-- One battle step under `AliveBound`: nothing is credited, or a Marine is credited
(`bugCount` positive and decremented by one), or a Bug is credited. -/
theorem step_credit_cases (s : GameState) (st : Step) (hb : AliveBound s) :
    AliveBound (step s st) ∧
    (step s st).marineCorps.length = s.marineCorps.length ∧
    (step s st).bugSwarm.length = s.bugSwarm.length ∧
    (((step s st).marineCount = s.marineCount ∧ (step s st).bugCount = s.bugCount ∧
        (step s st).gameOver = s.gameOver ∧
        totalKills (step s st).marineCorps = totalKills s.marineCorps ∧
        totalKills (step s st).bugSwarm = totalKills s.bugSwarm) ∨
      (1 ≤ s.bugCount ∧ (step s st).bugCount + 1 = s.bugCount ∧
        (step s st).marineCount = s.marineCount ∧
        totalKills (step s st).marineCorps = totalKills s.marineCorps + 1 ∧
        totalKills (step s st).bugSwarm = totalKills s.bugSwarm) ∨
      (1 ≤ s.marineCount ∧ (step s st).marineCount + 1 = s.marineCount ∧
        (step s st).bugCount = s.bugCount ∧
        totalKills (step s st).bugSwarm = totalKills s.bugSwarm + 1 ∧
        totalKills (step s st).marineCorps = totalKills s.marineCorps)) := by
  obtain ⟨h1, h2⟩ := hb
  cases st with
  | marineTask i pick rnd =>
    show AliveBound (marineStep s i pick rnd) ∧ (marineStep s i pick rnd).marineCorps.length = _ ∧
      (marineStep s i pick rnd).bugSwarm.length = _ ∧ _
    rcases marineStep_cases s i pick rnd with e | ⟨p1, m, q1, p2, b, q2, e1, e2, e3⟩
    · show AliveBound (marineStep s i pick rnd) ∧ _ ∧ _ ∧
        (((marineStep s i pick rnd).marineCount = _ ∧ (marineStep s i pick rnd).bugCount = _ ∧
          (marineStep s i pick rnd).gameOver = _ ∧
          totalKills (marineStep s i pick rnd).marineCorps = _ ∧
          totalKills (marineStep s i pick rnd).bugSwarm = _) ∨ _)
      rw [e]
      exact ⟨⟨h1, h2⟩, rfl, rfl, Or.inl ⟨rfl, rfl, rfl, rfl, rfl⟩⟩
    · show AliveBound (marineStep s i pick rnd) ∧ _ ∧ _ ∧
        (((marineStep s i pick rnd).marineCount = _ ∧ (marineStep s i pick rnd).bugCount = _ ∧
          (marineStep s i pick rnd).gameOver = _ ∧
          totalKills (marineStep s i pick rnd).marineCorps = _ ∧
          totalKills (marineStep s i pick rnd).bugSwarm = _) ∨
        (_ ∧ (marineStep s i pick rnd).bugCount + 1 = _ ∧
          (marineStep s i pick rnd).marineCount = _ ∧
          totalKills (marineStep s i pick rnd).marineCorps = _ ∧
          totalKills (marineStep s i pick rnd).bugSwarm = _) ∨
        (_ ∧ (marineStep s i pick rnd).marineCount + 1 = _ ∧
          (marineStep s i pick rnd).bugCount = _ ∧
          totalKills (marineStep s i pick rnd).bugSwarm = _ ∧
          totalKills (marineStep s i pick rnd).marineCorps = _))
      rw [e3]
      rw [e1] at h1
      rw [e2] at h2
      obtain ⟨k1, k2, k3⟩ := credit_battle p1 q1 p2 q2 m b s.shared true rnd _ _ h1 h2
      rcases k3 with ⟨c1, c2, c3⟩ | ⟨c1, c2, c3, c4⟩
      · rw [c1]
        exact ⟨⟨k1, c2⟩, by simp [e1], by simp [e2],
          Or.inl ⟨rfl, rfl, rfl, by rw [e1]; exact c3, by rw [e2]; exact k2⟩⟩
      · rw [c1]
        have hd : decSizeT s.bugCount = s.bugCount - 1 := by
          unfold decSizeT; rw [if_neg (by omega)]
        simp only [creditShared, GameState.shared, if_true, hd]
        exact ⟨⟨k1, c3⟩, by simp [e1], by simp [e2],
          Or.inr (Or.inl ⟨c2, by omega, trivial, by rw [e1]; exact c4, by rw [e2]; exact k2⟩)⟩
  | bugTask j pick rnd =>
    rcases bugStep_cases s j pick rnd with e | ⟨p1, m, q1, p2, b, q2, e1, e2, e3⟩
    · show AliveBound (bugStep s j pick rnd) ∧ (bugStep s j pick rnd).marineCorps.length = _ ∧
        (bugStep s j pick rnd).bugSwarm.length = _ ∧
        (((bugStep s j pick rnd).marineCount = _ ∧ (bugStep s j pick rnd).bugCount = _ ∧
          (bugStep s j pick rnd).gameOver = _ ∧
          totalKills (bugStep s j pick rnd).marineCorps = _ ∧
          totalKills (bugStep s j pick rnd).bugSwarm = _) ∨ _)
      rw [e]
      exact ⟨⟨h1, h2⟩, rfl, rfl, Or.inl ⟨rfl, rfl, rfl, rfl, rfl⟩⟩
    · show AliveBound (bugStep s j pick rnd) ∧ (bugStep s j pick rnd).marineCorps.length = _ ∧
        (bugStep s j pick rnd).bugSwarm.length = _ ∧
        (((bugStep s j pick rnd).marineCount = _ ∧ (bugStep s j pick rnd).bugCount = _ ∧
          (bugStep s j pick rnd).gameOver = _ ∧
          totalKills (bugStep s j pick rnd).marineCorps = _ ∧
          totalKills (bugStep s j pick rnd).bugSwarm = _) ∨
        (_ ∧ (bugStep s j pick rnd).bugCount + 1 = _ ∧
          (bugStep s j pick rnd).marineCount = _ ∧
          totalKills (bugStep s j pick rnd).marineCorps = _ ∧
          totalKills (bugStep s j pick rnd).bugSwarm = _) ∨
        (_ ∧ (bugStep s j pick rnd).marineCount + 1 = _ ∧
          (bugStep s j pick rnd).bugCount = _ ∧
          totalKills (bugStep s j pick rnd).bugSwarm = _ ∧
          totalKills (bugStep s j pick rnd).marineCorps = _))
      rw [e3]
      rw [e1] at h1
      rw [e2] at h2
      obtain ⟨k1, k2, k3⟩ := credit_battle p2 q2 p1 q1 b m s.shared false rnd _ _ h2 h1
      rcases k3 with ⟨c1, c2, c3⟩ | ⟨c1, c2, c3, c4⟩
      · rw [c1]
        exact ⟨⟨c2, k1⟩, by simp [e1], by simp [e2],
          Or.inl ⟨rfl, rfl, rfl, by rw [e1]; exact k2, by rw [e2]; exact c3⟩⟩
      · rw [c1]
        have hd : decSizeT s.marineCount = s.marineCount - 1 := by
          unfold decSizeT; rw [if_neg (by omega)]
        simp only [creditShared, GameState.shared, Bool.false_eq_true, if_false, hd]
        exact ⟨⟨c3, k1⟩, by simp [e1], by simp [e2],
          Or.inr (Or.inr ⟨c2, by omega, trivial, by rw [e2]; exact c4, by rw [e1]; exact k2⟩)⟩
theorem step_attacker_battle (s : GameState) (st : Step) (a : Soldier)
    (ha : stepAttacker s st = some a) :
    step s st = s ∨
    ∃ d, stepDefender s st = some d ∧
      stepAttacker (step s st) st
        = some (battle s.shared a d (isMarineTask st) (stepRoll st)).2.1 ∧
      (step s st).shared = (battle s.shared a d (isMarineTask st) (stepRoll st)).1 := by
  cases st with
  | marineTask i pick rnd =>
    simp only [stepAttacker, stepDefender, attackersOf, defendersOf, attackerIndex,
      defenderIndex, isMarineTask, stepRoll] at ha ⊢
    cases hd : s.bugSwarm[pick % s.bugSwarm.length]? with
    | none =>
      left
      show marineStep s i pick rnd = s
      unfold marineStep; rw [ha, hd]
    | some d =>
      right
      have e : step s (Step.marineTask i pick rnd) =
          { marineCorps := s.marineCorps.set i (battle s.shared a d true rnd).2.1,
            bugSwarm := s.bugSwarm.set (pick % s.bugSwarm.length)
              (battle s.shared a d true rnd).2.2,
            marineCount := (battle s.shared a d true rnd).1.marineCount,
            bugCount := (battle s.shared a d true rnd).1.bugCount,
            gameOver := (battle s.shared a d true rnd).1.gameOver } := by
        show marineStep s i pick rnd = _
        unfold marineStep
        rw [ha, hd]
      rw [e]
      exact ⟨d, rfl, getElem?_set_some _ _ _ _ ha, rfl⟩
  | bugTask j pick rnd =>
    simp only [stepAttacker, stepDefender, attackersOf, defendersOf, attackerIndex,
      defenderIndex, isMarineTask, stepRoll] at ha ⊢
    cases hd : s.marineCorps[pick % s.marineCorps.length]? with
    | none =>
      left
      show bugStep s j pick rnd = s
      unfold bugStep; rw [ha, hd]
    | some d =>
      right
      have e : step s (Step.bugTask j pick rnd) =
          { marineCorps := s.marineCorps.set (pick % s.marineCorps.length)
              (battle s.shared a d false rnd).2.2,
            bugSwarm := s.bugSwarm.set j (battle s.shared a d false rnd).2.1,
            marineCount := (battle s.shared a d false rnd).1.marineCount,
            bugCount := (battle s.shared a d false rnd).1.bugCount,
            gameOver := (battle s.shared a d false rnd).1.gameOver } := by
        show bugStep s j pick rnd = _
        unfold bugStep
        rw [ha, hd]
      rw [e]
      exact ⟨d, rfl, getElem?_set_some _ _ _ _ ha, rfl⟩

theorem opposingCount_eq (s : GameState) (st : Step) :
    opposingCount s st = if isMarineTask st = true then s.shared.bugCount
      else s.shared.marineCount := by
  cases st <;> rfl

theorem defender_alive_count (s : GameState) (st : Step) (d : Soldier)
    (hb : AliveBound s) (hd : stepDefender s st = some d) (hl : d.alive = true) :
    1 ≤ opposingCount s st := by
  have hmem : d ∈ defendersOf s st := List.getElem?_mem hd
  have hpos : 0 < aliveCount (defendersOf s st) := by
    unfold aliveCount
    exact List.countP_pos_iff.mpr ⟨d, hmem, hl⟩
  cases st with
  | marineTask i pick rnd =>
    have := hb.2
    simp only [defendersOf, opposingCount] at hpos ⊢
    omega
  | bugTask j pick rnd =>
    have := hb.1
    simp only [defendersOf, opposingCount] at hpos ⊢
    omega

theorem credit_fresh (mn bn : List String) :
    AliveBound (freshState mn bn) ∧ CreditInv (freshState mn bn) := by
  have hk1 : totalKills (mn.map Marine.new) = 0 := by
    induction mn with
    | nil => rfl
    | cons n t ih => rw [List.map_cons, totalKills_cons, ih]; rfl
  have hk2 : totalKills (bn.map Bug.new) = 0 := by
    induction bn with
    | nil => rfl
    | cons n t ih => rw [List.map_cons, totalKills_cons, ih]; rfl
  unfold AliveBound CreditInv freshState gameLoopInit
  simp only [hk1, hk2]
  exact ⟨⟨aliveCount_le_length _, aliveCount_le_length _⟩, rfl, rfl⟩

theorem credit_step (s : GameState) (st : Step) (h : AliveBound s ∧ CreditInv s) :
    AliveBound (step s st) ∧ CreditInv (step s st) := by
  obtain ⟨hb, hk1, hk2⟩ := h
  obtain ⟨nb, l1, l2, hc⟩ := step_credit_cases s st hb
  refine ⟨nb, ?_⟩
  unfold CreditInv
  rw [l1, l2]
  rcases hc with ⟨c1, c2, _, c4, c5⟩ | ⟨_, c2, c3, c4, c5⟩ | ⟨_, c2, c3, c4, c5⟩
  · rw [c1, c2, c4, c5]; exact ⟨hk1, hk2⟩
  · rw [c3, c4, c5]; exact ⟨by omega, hk2⟩
  · rw [c3, c4, c5]; exact ⟨hk1, by omega⟩

theorem credit_run (mn bn : List String) (steps : List Step) :
    AliveBound (run (freshState mn bn) steps) ∧ CreditInv (run (freshState mn bn) steps) :=
  run_induction (fun s => AliveBound s ∧ CreditInv s) credit_step _ steps
    (credit_fresh mn bn)

/-- At a state where the counters bound the living, the attacker of a battle step
either gains one kill while the opposing count drops by one, or keeps its kill list
while the opposing count stays. -/
theorem step_credit_at_attacker (s : GameState) (st : Step) (a : Soldier)
    (hb : AliveBound s) (ha : stepAttacker s st = some a) :
    ∃ a1, stepAttacker (step s st) st = some a1 ∧
      ((opposingCount (step s st) st + 1 = opposingCount s st ∧
          a1.enemies_killed.length = a.enemies_killed.length + 1) ∨
        (opposingCount (step s st) st = opposingCount s st ∧
          a1.enemies_killed = a.enemies_killed)) := by
  rcases step_attacker_battle s st a ha with e | ⟨d, hd, h1, h2⟩
  · rw [e]; exact ⟨a, ha, Or.inr ⟨rfl, rfl⟩⟩
  · refine ⟨_, h1, ?_⟩
    rw [opposingCount_eq (step s st) st, opposingCount_eq s st, h2]
    rcases battle_credit s.shared a d (isMarineTask st) (stepRoll st)
      with ⟨c1, c2⟩ | ⟨_, c2, _, c4, c5⟩
    · right; rw [c1]; exact ⟨rfl, c2⟩
    · left
      have hpos := defender_alive_count s st d hb hd c2
      rw [opposingCount_eq] at hpos
      rw [c4, c5]
      refine ⟨?_, by simp⟩
      unfold creditShared
      cases hm : isMarineTask st
      · rw [hm] at hpos
        simp only [Bool.false_eq_true, if_false] at hpos ⊢
        unfold decSizeT; rw [if_neg (by omega)]; omega
      · rw [hm] at hpos
        simp only [if_true] at hpos ⊢
        unfold decSizeT; rw [if_neg (by omega)]; omega
/-- C22.  In every state reachable by battle steps from fresh rosters, `bugCount` is
the number of Bugs less the total length of the Marines' kill lists and `marineCount`
is the number of Marines less the total length of the Bugs' kill lists; and in every
battle step from such a state the opposing side's count is decremented by exactly one
if and only if the attacker's `enemies_killed` grows by exactly one entry (otherwise
count and list are both unchanged). -/
theorem count_decrement_iff_credit (mn bn : List String) (steps : List Step) :
    ((run (freshState mn bn) steps).bugCount
        = (run (freshState mn bn) steps).bugSwarm.length
          - totalKills (run (freshState mn bn) steps).marineCorps ∧
      totalKills (run (freshState mn bn) steps).marineCorps
        ≤ (run (freshState mn bn) steps).bugSwarm.length ∧
      (run (freshState mn bn) steps).marineCount
        = (run (freshState mn bn) steps).marineCorps.length
          - totalKills (run (freshState mn bn) steps).bugSwarm ∧
      totalKills (run (freshState mn bn) steps).bugSwarm
        ≤ (run (freshState mn bn) steps).marineCorps.length) ∧
    ∀ (st : Step) (a : Soldier), stepAttacker (run (freshState mn bn) steps) st = some a →
      ∃ a1, stepAttacker (step (run (freshState mn bn) steps) st) st = some a1 ∧
        ((opposingCount (step (run (freshState mn bn) steps) st) st + 1
              = opposingCount (run (freshState mn bn) steps) st ∧
            a1.enemies_killed.length = a.enemies_killed.length + 1) ∨
          (opposingCount (step (run (freshState mn bn) steps) st) st
              = opposingCount (run (freshState mn bn) steps) st ∧
            a1.enemies_killed = a.enemies_killed)) ∧
        (opposingCount (step (run (freshState mn bn) steps) st) st + 1
            = opposingCount (run (freshState mn bn) steps) st ↔
          a1.enemies_killed.length = a.enemies_killed.length + 1) := by
  obtain ⟨hb, hk1, hk2⟩ := credit_run mn bn steps
  refine ⟨⟨by omega, by omega, by omega, by omega⟩, ?_⟩
  intro st a ha
  obtain ⟨a1, h1, h2⟩ := step_credit_at_attacker _ st a hb ha
  refine ⟨a1, h1, h2, ?_⟩
  rcases h2 with ⟨c1, c2⟩ | ⟨c1, c2⟩
  · exact ⟨fun _ => c2, fun _ => c1⟩
  · rw [c1, c2]
    constructor <;> intro h <;> omega

/-- C22 at the second hit of Bug1 on Marine1 in the battle of one Marine and one Bug:
`marineCount` goes from 1 to 0 and Bug1's kill list from empty to one entry. -/
theorem count_decrement_iff_credit_witness :
    stepAttacker (run (freshState ["Marine1"] ["Bug1"]) [Step.bugTask 0 0 8])
      (Step.bugTask 0 0 8) = some { Bug.new "Bug1" with hits := 1 } ∧
    ∃ a1, stepAttacker (step (run (freshState ["Marine1"] ["Bug1"]) [Step.bugTask 0 0 8])
        (Step.bugTask 0 0 8)) (Step.bugTask 0 0 8) = some a1 ∧
      ((opposingCount (step (run (freshState ["Marine1"] ["Bug1"]) [Step.bugTask 0 0 8])
            (Step.bugTask 0 0 8)) (Step.bugTask 0 0 8) + 1
          = opposingCount (run (freshState ["Marine1"] ["Bug1"]) [Step.bugTask 0 0 8])
            (Step.bugTask 0 0 8) ∧
          a1.enemies_killed.length
            = ({ Bug.new "Bug1" with hits := 1 } : Soldier).enemies_killed.length + 1) ∨
        (opposingCount (step (run (freshState ["Marine1"] ["Bug1"]) [Step.bugTask 0 0 8])
            (Step.bugTask 0 0 8)) (Step.bugTask 0 0 8)
          = opposingCount (run (freshState ["Marine1"] ["Bug1"]) [Step.bugTask 0 0 8])
            (Step.bugTask 0 0 8) ∧
          a1.enemies_killed = ({ Bug.new "Bug1" with hits := 1 } : Soldier).enemies_killed)) ∧
      (opposingCount (step (run (freshState ["Marine1"] ["Bug1"]) [Step.bugTask 0 0 8])
            (Step.bugTask 0 0 8)) (Step.bugTask 0 0 8) + 1
          = opposingCount (run (freshState ["Marine1"] ["Bug1"]) [Step.bugTask 0 0 8])
            (Step.bugTask 0 0 8) ↔
        a1.enemies_killed.length
          = ({ Bug.new "Bug1" with hits := 1 } : Soldier).enemies_killed.length + 1) :=
  ⟨by decide,
    (count_decrement_iff_credit ["Marine1"] ["Bug1"] [Step.bugTask 0 0 8]).2
      (Step.bugTask 0 0 8) { Bug.new "Bug1" with hits := 1 } (by decide)⟩

/-- C25.  For every sequence of battle steps from fresh rosters, no counter is ever
decremented while zero: a further battle step leaves each counter unchanged or
decrements a positive counter by one, and the kills credited against a side never
exceed that side's roster size. -/
theorem counters_never_wrap (mn bn : List String) (steps : List Step) (st : Step) :
    ((step (run (freshState mn bn) steps) st).marineCount
        = (run (freshState mn bn) steps).marineCount ∨
      (0 < (run (freshState mn bn) steps).marineCount ∧
        (step (run (freshState mn bn) steps) st).marineCount + 1
          = (run (freshState mn bn) steps).marineCount)) ∧
    ((step (run (freshState mn bn) steps) st).bugCount
        = (run (freshState mn bn) steps).bugCount ∨
      (0 < (run (freshState mn bn) steps).bugCount ∧
        (step (run (freshState mn bn) steps) st).bugCount + 1
          = (run (freshState mn bn) steps).bugCount)) ∧
    totalKills (run (freshState mn bn) steps).bugSwarm
      ≤ (run (freshState mn bn) steps).marineCorps.length ∧
    totalKills (run (freshState mn bn) steps).marineCorps
      ≤ (run (freshState mn bn) steps).bugSwarm.length ∧
    (run (freshState mn bn) steps).marineCorps.length = mn.length ∧
    (run (freshState mn bn) steps).bugSwarm.length = bn.length := by
  obtain ⟨hb, hk1, hk2⟩ := credit_run mn bn steps
  obtain ⟨_, _, _, hc⟩ := step_credit_cases _ st hb
  have hlen : ∀ steps1 : List Step,
      (run (freshState mn bn) steps1).marineCorps.length = mn.length ∧
      (run (freshState mn bn) steps1).bugSwarm.length = bn.length := by
    intro steps1
    refine run_induction (fun s => s.marineCorps.length = mn.length ∧
      s.bugSwarm.length = bn.length) ?_ _ steps1 (by simp [freshState, gameLoopInit])
    intro s st1 ⟨h1, h2⟩
    by_cases hab : AliveBound s
    · obtain ⟨_, l1, l2, _⟩ := step_credit_cases s st1 hab
      exact ⟨by rw [l1, h1], by rw [l2, h2]⟩
    · cases st1 with
      | marineTask i pick rnd =>
        show (marineStep s i pick rnd).marineCorps.length = _ ∧
          (marineStep s i pick rnd).bugSwarm.length = _
        unfold marineStep
        split <;> simp [h1, h2]
      | bugTask j pick rnd =>
        show (bugStep s j pick rnd).marineCorps.length = _ ∧
          (bugStep s j pick rnd).bugSwarm.length = _
        unfold bugStep
        split <;> simp [h1, h2]
  refine ⟨?_, ?_, by omega, by omega, (hlen steps).1, (hlen steps).2⟩
  · rcases hc with ⟨c1, _, _, _, _⟩ | ⟨_, _, c3, _, _⟩ | ⟨c1, c2, _, _, _⟩
    · exact Or.inl c1
    · exact Or.inl c3
    · exact Or.inr ⟨by omega, c2⟩
  · rcases hc with ⟨_, c2, _, _, _⟩ | ⟨c1, c2, _, _, _⟩ | ⟨_, _, c3, _, _⟩
    · exact Or.inl c2
    · exact Or.inr ⟨by omega, c2⟩
    · exact Or.inl c3

/-- C26.  In every state reachable by battle steps from fresh rosters, each
combatant's number of credited kills is at most its number of landed hits; and an
attacker whose `hits` a battle step leaves unchanged (it missed, or the guard
returned) keeps its `enemies_killed` unchanged: every credit comes with a hit of the
same step. -/
theorem kills_at_most_hits (mn bn : List String) (steps : List Step) :
    (∀ x : Soldier, x ∈ (run (freshState mn bn) steps).marineCorps ∨
        x ∈ (run (freshState mn bn) steps).bugSwarm →
      (x.enemies_killed.length : Int) ≤ x.hits) ∧
    ∀ (st : Step) (a : Soldier), stepAttacker (run (freshState mn bn) steps) st = some a →
      ∃ a1, stepAttacker (step (run (freshState mn bn) steps) st) st = some a1 ∧
        (a1.hits = a.hits → a1.enemies_killed = a.enemies_killed) ∧
        (a1.enemies_killed ≠ a.enemies_killed → a1.hits = a.hits + 1) := by
  have hinv : HitInv (run (freshState mn bn) steps) :=
    run_induction HitInv hitInv_step _ steps (hitInv_fresh mn bn)
  constructor
  · intro x hx
    rcases hx with hx | hx
    · exact hinv.1 x hx
    · exact hinv.2 x hx
  · intro st a ha
    rcases step_attacker_battle _ st a ha with e | ⟨d, _, h1, _⟩
    · rw [e]; exact ⟨a, ha, fun _ => rfl, fun h => absurd rfl h⟩
    · refine ⟨_, h1, ?_, ?_⟩
      · intro hh
        rcases battle_hits (run (freshState mn bn) steps).shared a d (isMarineTask st)
          (stepRoll st) with ⟨_, k2⟩ | k1
        · exact k2
        · rw [k1] at hh; omega
      · intro hne
        rcases battle_hits (run (freshState mn bn) steps).shared a d (isMarineTask st)
          (stepRoll st) with ⟨_, k2⟩ | k1
        · exact absurd k2 hne
        · exact k1

/-- C26 at the Bug that killed Marine1 with two hits: one kill, two hits. -/
theorem kills_at_most_hits_witness :
    (({ Bug.new "Bug1" with hits := 2, enemies_killed := ["Marine1"] } : Soldier) ∈
        (run (freshState ["Marine1"] ["Bug1"])
          [Step.bugTask 0 0 8, Step.bugTask 0 0 8]).marineCorps ∨
      ({ Bug.new "Bug1" with hits := 2, enemies_killed := ["Marine1"] } : Soldier) ∈
        (run (freshState ["Marine1"] ["Bug1"])
          [Step.bugTask 0 0 8, Step.bugTask 0 0 8]).bugSwarm) ∧
    ((({ Bug.new "Bug1" with hits := 2, enemies_killed := ["Marine1"] } :
        Soldier).enemies_killed.length : Int)
      ≤ ({ Bug.new "Bug1" with hits := 2, enemies_killed := ["Marine1"] } : Soldier).hits) :=
  ⟨by decide,
    (kills_at_most_hits ["Marine1"] ["Bug1"] [Step.bugTask 0 0 8, Step.bugTask 0 0 8]).1
      { Bug.new "Bug1" with hits := 2, enemies_killed := ["Marine1"] } (by decide)⟩
/-! ## The turn-based version -/

/-- C23 (code departs from the claim).  Turn-based version, one Marine against one
Bug, Bugs first.  In the first turn the Bug rolls 10: `Bug::slay` brings the Marine's
health to 0 and leaves `alive` true, so the game goes on.  In the next sweep
`marineAttack` does not skip the Marine: it attacks (one entry is pushed to
`marine_hits`), hits with a roll of 8 (`marine_hit` becomes 1) and takes the Bug
from health 100 to 50, all with its own health at 0. -/
theorem zero_health_marine_attacks_again :
    (Turns.gameLoopRun (fun k => [0, 9, 0, 7].getD k 0) 1
      (Turns.initState 1 1 false)).marine_force.map (fun x => (x.health, x.alive, x.hit))
      = [(0, true, 0)] ∧
    (Turns.gameLoopRun (fun k => [0, 9, 0, 7].getD k 0) 1
      (Turns.initState 1 1 false)).game_over = false ∧
    (Turns.gameLoopRun (fun k => [0, 9, 0, 7].getD k 0) 1
      (Turns.initState 1 1 false)).marine_hits = [] ∧
    (Turns.gameLoopRun (fun k => [0, 9, 0, 7].getD k 0) 2
      (Turns.initState 1 1 false)).marine_hits = [1] ∧
    (Turns.gameLoopRun (fun k => [0, 9, 0, 7].getD k 0) 2
      (Turns.initState 1 1 false)).marine_force.map (fun x => (x.health, x.alive, x.hit))
      = [(0, true, 1)] ∧
    (Turns.gameLoopRun (fun k => [0, 9, 0, 7].getD k 0) 1
      (Turns.initState 1 1 false)).bug_force.map (fun x => x.health) = [100] ∧
    (Turns.gameLoopRun (fun k => [0, 9, 0, 7].getD k 0) 2
      (Turns.initState 1 1 false)).bug_force.map (fun x => x.health) = [50] := by
  decide

end BugHunt
